import Mathlib

/-!
A verification development for the `wacc` C-subset-to-WASM compiler.

Shallow embedding of the compiler pipeline: lexer (`src/lexer.c`),
recursive-descent parser (the newest generation in `arena.c`), semantic
analyzer (the newest `semantic.c`, shipped as `unnamed/part_004`),
IR lowering (`src/ir.c`), and the WASM binary emitter (`src/codegen.c`).
Each Lean definition carries a note naming the C function it embeds.
Where the repository snapshot only declares a feature (header, docs,
tests) but the defining C code is absent, the definition is marked
`Modelled from the spec:` and follows the specification text.
-/

namespace Wacc

/-! ## Machine integers

C `int` is 32-bit two's complement; C `long` on the build target is
64-bit.  We model values as unbounded `Int` and wrap explicitly where
the C code narrows. -/

/-- Conversion of a C `long` value to a C `int`: two's-complement
truncation modulo `2^32` into the range `[-2^31, 2^31)`. -/
def wrap32 (v : Int) : Int := ((v + 2 ^ 31) % 2 ^ 32) - 2 ^ 31

/-- Unsigned 32-bit view of a wrapped value (two's complement). -/
def u32 (v : Int) : Nat := (v % 2 ^ 32).toNat

/-- Signed view of an unsigned 32-bit value. -/
def s32 (n : Nat) : Int := wrap32 n

/-! ## Utility functions (`src/utils.c`) -/

/-- Embeds `is_space` from `utils.c`. -/
def is_space (c : Char) : Bool :=
  c = ' ' || c = '\t' || c = '\n' || c = '\r' || c = '\x0c' || c = '\x0b'

/-- Embeds `is_alpha` from `utils.c`. -/
def is_alpha (c : Char) : Bool :=
  ('a' ≤ c && c ≤ 'z') || ('A' ≤ c && c ≤ 'Z')

/-- Embeds `is_digit` from `utils.c`. -/
def is_digit (c : Char) : Bool := '0' ≤ c && c ≤ '9'

/-- Embeds `is_alnum` from `utils.c`. -/
def is_alnum (c : Char) : Bool := is_alpha c || is_digit c

/-- The digit-accumulation loop of `str_to_long` (`utils.c`):
`result = result * 10 + (*ptr - '0')` over a digit prefix.  The C code
accumulates in a 64-bit `long` with no range check; this model uses an
unbounded integer, which matches the C behaviour for every literal below
`2^63` (beyond that the C accumulation overflows a signed `long`, which
is undefined behaviour). -/
def strToLongDigits : List Char → Int → Int
  | [], acc => acc
  | c :: rest, acc =>
    if is_digit c then strToLongDigits rest (acc * 10 + (c.toNat - '0'.toNat : Nat))
    else acc

/-- Embeds `str_to_long` from `utils.c` (base 10 path): skip leading
whitespace, then an optional sign, then accumulate digits; stop at the
first non-digit. -/
def str_to_long (s : List Char) : Int :=
  let s1 := s.dropWhile is_space
  match s1 with
  | '-' :: rest => -(strToLongDigits rest 0)
  | '+' :: rest => strToLongDigits rest 0
  | _ => strToLongDigits s1 0

/-! ## Diagnostics (`error.c`)

`error_list_add` appends a `CompilerError`; every error level used by
the pipeline (`ERROR_LEXICAL`, `ERROR_SYNTAX`, `ERROR_SEMANTIC`) is
non-warning, so it sets the sticky `has_fatal_errors` flag.  We model
the list of collected errors by their id and source location; the fatal
flag is the list being nonempty. -/

structure CompErr where
  id : Nat
  line : Nat
  col : Nat
deriving DecidableEq, Repr

/-! ## Lexer (`src/lexer.c`) -/

/-- Token kinds (`TokenType` in `compiler.h`). -/
inductive TokTy
  | eof | kwInt | ident | kwReturn
  | lparen | rparen | lbrace | rbrace | semi
  | intlit
  | bang | tilde | minus | plus | star | slash | percent
  | assignEq | eqeq | bangeq | ltTok | gtTok | leTok | geTok
  | ampamp | pipepipe
  | kwIf | kwElse | kwDo | kwWhile | kwBreak | kwContinue
  | question | colon
  | errTok
deriving DecidableEq, Repr

/-- A token: kind, lexeme, and source location (`Token` in
`compiler.h`).  `off` is the byte offset of `start` into the source
buffer, standing in for the C start pointer. -/
structure Token where
  ty : TokTy
  text : List Char
  line : Nat
  col : Nat
  off : Nat
deriving DecidableEq, Repr

/-- Lexer state (`Lexer` in `compiler.h`): the not-yet-consumed suffix
of the source plus the current line/column and byte offset. -/
structure LexSt where
  src : List Char
  line : Nat
  col : Nat
  off : Nat
deriving DecidableEq, Repr

/-- Embeds `skip_whitespace` from `lexer.c` (recursing on the source
suffix; the remaining arguments are line, column, offset). -/
def skipWsAux : List Char → Nat → Nat → Nat → LexSt
  | [], l, c, o => ⟨[], l, c, o⟩
  | ch :: rest, l, c, o =>
    if is_space ch then
      if ch = '\n' then skipWsAux rest (l + 1) 1 (o + 1)
      else skipWsAux rest l (c + 1) (o + 1)
    else ⟨ch :: rest, l, c, o⟩

def skipWhitespace (s : LexSt) : LexSt := skipWsAux s.src s.line s.col s.off

/-- Embeds `skip_line_comment` from `lexer.c`: consume to end of line
(or end of buffer), bumping the column. -/
def skipCommentAux : List Char → Nat → Nat → Nat → LexSt
  | [], l, c, o => ⟨[], l, c, o⟩
  | ch :: rest, l, c, o =>
    if ch = '\n' then ⟨ch :: rest, l, c, o⟩
    else skipCommentAux rest l (c + 1) (o + 1)

def skipLineComment (s : LexSt) : LexSt :=
  skipCommentAux s.src s.line s.col s.off

/-- The whitespace-and-comment loop at the top of `lexer_next_token`:
alternately skip whitespace and `//` comments.  Fuel bounds the number
of comment rounds; `src.length + 1` always suffices since every round
consumes input. -/
def skipAll : Nat → LexSt → LexSt
  | 0, s => s
  | fuel + 1, s =>
    let s1 := skipWhitespace s
    match s1.src with
    | '/' :: '/' :: rest =>
      skipAll fuel (skipLineComment ⟨rest, s1.line, s1.col + 2, s1.off + 2⟩)
    | _ => s1

/-- Embeds `get_keyword_type` from `src/lexer.c` (the newest lexer in
the snapshot): only `int` and `return` are classified as keywords. -/
def get_keyword_type (text : List Char) : TokTy :=
  if text = "int".toList then .kwInt
  else if text = "return".toList then .kwReturn
  else .ident

/-- Result of one `lexer_next_token` call: the token, the advanced
lexer state, and any diagnostics recorded during the call. -/
structure LexOut where
  tok : Token
  st : LexSt
  errs : List CompErr
deriving Repr

/-- Helper: a single-character token at the current position. -/
def tok1 (ty : TokTy) (ch : Char) (s : LexSt) (rest : List Char) : LexOut :=
  ⟨⟨ty, [ch], s.line, s.col, s.off⟩, ⟨rest, s.line, s.col + 1, s.off + 1⟩, []⟩

/-- Helper: a two-character token at the current position. -/
def tok2 (ty : TokTy) (c1 c2 : Char) (s : LexSt) (rest : List Char) : LexOut :=
  ⟨⟨ty, [c1, c2], s.line, s.col, s.off⟩, ⟨rest, s.line, s.col + 2, s.off + 2⟩, []⟩

/-- Embeds `lexer_next_token` from `src/lexer.c`.  After skipping
whitespace and comments it produces one token.  A lone `&` or `|`, or
any unrecognized character, records error 1001
(`ERROR_LEX_INVALID_CHARACTER`) and yields a `TOKEN_ERROR` of length 1.
Identifier and digit runs take the maximal prefix, exactly as the C
`while` loops do. -/
def lexer_next_token (s0 : LexSt) : LexOut :=
  let s := skipAll (s0.src.length + 1) s0
  match s.src with
  | [] => ⟨⟨.eof, [], s.line, s.col, s.off⟩, s, []⟩
  | ch :: rest =>
    match ch with
    | '(' => tok1 .lparen ch s rest
    | ')' => tok1 .rparen ch s rest
    | '{' => tok1 .lbrace ch s rest
    | '}' => tok1 .rbrace ch s rest
    | ';' => tok1 .semi ch s rest
    | '~' => tok1 .tilde ch s rest
    | '-' => tok1 .minus ch s rest
    | '+' => tok1 .plus ch s rest
    | '*' => tok1 .star ch s rest
    | '/' => tok1 .slash ch s rest
    | '%' => tok1 .percent ch s rest
    | '<' =>
      match rest with
      | '=' :: rest2 => tok2 .leTok '<' '=' s rest2
      | _ => tok1 .ltTok ch s rest
    | '>' =>
      match rest with
      | '=' :: rest2 => tok2 .geTok '>' '=' s rest2
      | _ => tok1 .gtTok ch s rest
    | '!' =>
      match rest with
      | '=' :: rest2 => tok2 .bangeq '!' '=' s rest2
      | _ => tok1 .bang ch s rest
    | '=' =>
      match rest with
      | '=' :: rest2 => tok2 .eqeq '=' '=' s rest2
      | _ => tok1 .assignEq ch s rest
    | '&' =>
      match rest with
      | '&' :: rest2 => tok2 .ampamp '&' '&' s rest2
      | _ =>
        { tok1 .errTok ch s rest with errs := [⟨1001, s.line, s.col⟩] }
    | '|' =>
      match rest with
      | '|' :: rest2 => tok2 .pipepipe '|' '|' s rest2
      | _ =>
        { tok1 .errTok ch s rest with errs := [⟨1001, s.line, s.col⟩] }
    | _ =>
      if is_alpha ch || ch = '_' then
        let body := rest.takeWhile (fun c => is_alnum c || c = '_')
        let text := ch :: body
        ⟨⟨get_keyword_type text, text, s.line, s.col, s.off⟩,
          ⟨rest.dropWhile (fun c => is_alnum c || c = '_'),
            s.line, s.col + text.length, s.off + text.length⟩, []⟩
      else if is_digit ch then
        let body := rest.takeWhile is_digit
        let text := ch :: body
        ⟨⟨.intlit, text, s.line, s.col, s.off⟩,
          ⟨rest.dropWhile is_digit, s.line, s.col + text.length,
            s.off + text.length⟩, []⟩
      else
        { tok1 .errTok ch s rest with errs := [⟨1001, s.line, s.col⟩] }

/-- Drive the lazy lexer to end of input, collecting the token stream
(EOF excluded) and every lexical diagnostic.  The returned `Token` is
the EOF token (whose `start` is the end of the buffer).  Fuel bounds the
number of tokens; `src.length + 1` always suffices because every
non-EOF token consumes at least one character. -/
def tokenize : Nat → LexSt → List Token × Token × List CompErr
  | 0, s => ([], ⟨.eof, [], s.line, s.col, s.off⟩, [])
  | fuel + 1, s =>
    let out := lexer_next_token s
    match out.tok.ty with
    | .eof => ([], out.tok, out.errs)
    | _ =>
      let (ts, eofTok, es) := tokenize fuel out.st
      (out.tok :: ts, eofTok, out.errs ++ es)

/-- Initial lexer state over a source text (`lexer_create`). -/
def lexInit (src : List Char) : LexSt := ⟨src, 1, 1, 0⟩

/-! ## Abstract syntax tree (`compiler.h`)

The C `ASTNode` is one tagged union; expressions and statements are
split into two Lean types, following the node classification the parser
produces.  Only the nodes whose source location a diagnostic quotes
(`variable_ref`, `assignment`, `variable_decl`, `break`, `continue`)
carry their `line`/`column` fields; `create_ast_node` fills them from
the token current at node-creation time. -/

/-- Unary operators stored in `unary_op.operator` (`!`, `~`, `-`). -/
inductive UnOp
  | neg | lnot | bnot
deriving DecidableEq, Repr

/-- Binary operators stored in `binary_op.operator`. -/
inductive BinOp
  | add | sub | mul | div | mod
  | beq | bne | blt | bgt | ble | bge
  | land | lor
deriving DecidableEq, Repr

inductive Expr
  | intConst (v : Int)
  | varRef (name : String) (line col : Nat)
  | unary (op : UnOp) (e : Expr)
  | binary (op : BinOp) (l r : Expr)
  | assign (name : String) (line col : Nat) (value : Expr)
  | ternary (c t f : Expr)
deriving DecidableEq, Repr

inductive Stmt
  | ret (e : Expr)
  | decl (name : String) (line col : Nat) (init : Option Expr)
  | exprStmt (e : Expr)
  | sif (c : Expr) (thn : Stmt) (els : Option Stmt)
  | swhile (c : Expr) (body : Stmt)
  | sbreak (line col : Nat)
  | scontinue (line col : Nat)
  | block (ss : List Stmt)

/-- `Function` + `Program` nodes. -/
structure Program where
  fname : String
  stmts : List Stmt

/-! ## Parser (newest generation in `arena.c`)

The C parser holds a lazy lexer and one token of lookahead.  We
pre-tokenize: the parser state is the token list, a cursor index, and
the accumulated diagnostics (`parser->errors`).  `cur` past the end of
the list yields the EOF token, matching the C lexer, which keeps
returning EOF at the end of the buffer.  (Pre-tokenizing makes lexical
diagnostics precede syntactic ones in the combined list; no claim
observes the relative order across phases.) -/

structure PSt where
  toks : List Token
  eofTok : Token
  pos : Nat
  errs : List CompErr
deriving Repr

/-- The parser's current token (`parser->current_token`). -/
def PSt.cur (s : PSt) : Token := s.toks.getD s.pos s.eofTok

/-- Embeds `advance_token`. -/
def PSt.adv (s : PSt) : PSt := { s with pos := s.pos + 1 }

/-- Embeds `report_error`: append a syntax diagnostic located at the
current token. -/
def PSt.report (s : PSt) (id : Nat) : PSt :=
  { s with errs := s.errs ++ [⟨id, s.cur.line, s.cur.col⟩] }

/-- Embeds `match_token`: consume the current token when it has the
requested kind. -/
def PSt.matchTok (s : PSt) (ty : TokTy) : Bool × PSt :=
  if s.cur.ty = ty then (true, s.adv) else (false, s)

/-- Embeds `synchronize`: skip tokens until `;`, `{`, `}` or EOF.  Fuel
bounds the skipping; `toks.length + 1 - pos` suffices since every step
advances and past the end the current token is EOF. -/
def syncF : Nat → PSt → PSt
  | 0, s => s
  | fuel + 1, s =>
    if s.cur.ty = .eof then s
    else if s.cur.ty = .semi || s.cur.ty = .lbrace || s.cur.ty = .rbrace then s
    else syncF fuel s.adv

def PSt.sync (s : PSt) : PSt := syncF (s.toks.length + 1 - s.pos) s

/-- `binary_op.operator` for the multiplicative/additive/relational/
equality/logical loops, read off the operator token. -/
def binOfTok : TokTy → Option BinOp
  | .plus => some .add
  | .minus => some .sub
  | .star => some .mul
  | .slash => some .div
  | .percent => some .mod
  | .eqeq => some .beq
  | .bangeq => some .bne
  | .ltTok => some .blt
  | .gtTok => some .bgt
  | .leTok => some .ble
  | .geTok => some .bge
  | .ampamp => some .land
  | .pipepipe => some .lor
  | _ => none

/-!
The recursive-descent functions of the newest parser generation in
`arena.c` (`parse_primary` … `parser_parse_program`).  Every function
takes fuel and decrements it on every call; the top-level entry point
supplies fuel ample for its input, and the fuel-out result is a parse
failure that consumes nothing (the progress lemmas below hold for every
fuel, so the termination claim does not depend on the fuel choice).
Each `while` loop of the C code is its own `…Loop` function on the
accumulated left operand.
-/

mutual

/-- Embeds `parse_primary` (`arena.c`).  An integer literal directly
followed by `(` is diagnosed as 3006 (missing operator).  `str_to_long`
is applied to the token lexeme, which equals what the C call reads from
the token's start pointer because the lexeme is a maximal digit run;
the `long` result is narrowed into the node's C `int` field. -/
def parsePrimary : Nat → PSt → Option Expr × PSt
  | 0, s => (none, s)
  | fuel + 1, s =>
    if s.cur.ty = .intlit then
      let v := wrap32 (str_to_long s.cur.text)
      let s1 := s.adv
      if s1.cur.ty = .lparen then (none, (s1.report 3006).adv)
      else (some (.intConst v), s1)
    else if s.cur.ty = .ident then
      let t := s.cur
      (some (.varRef (String.mk t.text) t.line t.col), s.adv)
    else
      match s.matchTok .lparen with
      | (true, s1) =>
        match parseExpr fuel s1 with
        | (none, s2) => (none, s2)
        | (some e, s2) =>
          match s2.matchTok .rparen with
          | (true, s3) => (some e, s3)
          | (false, s3) => (none, s3.report 2005)
      | (false, s1) => (none, (s1.report 2009).sync)

/-- Embeds `parse_unary` (`arena.c`): right-associative `!`, `~`, `-`. -/
def parseUnary : Nat → PSt → Option Expr × PSt
  | 0, s => (none, s)
  | fuel + 1, s =>
    let mk (op : UnOp) : Option Expr × PSt :=
      match parseUnary fuel s.adv with
      | (none, s2) => (none, s2)
      | (some operand, s2) => (some (.unary op operand), s2)
    match s.cur.ty with
    | .bang => mk .lnot
    | .tilde => mk .bnot
    | .minus => mk .neg
    | _ => parsePrimary fuel s

/-- The `while` loop of `parse_multiplicative`. -/
def parseMulLoop : Nat → Expr → PSt → Option Expr × PSt
  | 0, _, s => (none, s)
  | fuel + 1, left, s =>
    if s.cur.ty = .star || s.cur.ty = .slash || s.cur.ty = .percent then
      let op := (binOfTok s.cur.ty).getD .mul
      match parseUnary fuel s.adv with
      | (none, s2) => (none, s2)
      | (some right, s2) => parseMulLoop fuel (.binary op left right) s2
    else (some left, s)

/-- Embeds `parse_multiplicative` (`arena.c`). -/
def parseMul : Nat → PSt → Option Expr × PSt
  | 0, s => (none, s)
  | fuel + 1, s =>
    match parseUnary fuel s with
    | (none, s1) => (none, s1)
    | (some left, s1) => parseMulLoop fuel left s1

/-- The `while` loop of `parse_additive`. -/
def parseAddLoop : Nat → Expr → PSt → Option Expr × PSt
  | 0, _, s => (none, s)
  | fuel + 1, left, s =>
    if s.cur.ty = .plus || s.cur.ty = .minus then
      let op := (binOfTok s.cur.ty).getD .add
      match parseMul fuel s.adv with
      | (none, s2) => (none, s2)
      | (some right, s2) => parseAddLoop fuel (.binary op left right) s2
    else (some left, s)

/-- Embeds `parse_additive` (`arena.c`). -/
def parseAdd : Nat → PSt → Option Expr × PSt
  | 0, s => (none, s)
  | fuel + 1, s =>
    match parseMul fuel s with
    | (none, s1) => (none, s1)
    | (some left, s1) => parseAddLoop fuel left s1

/-- The `while` loop of `parse_relational`. -/
def parseRelLoop : Nat → Expr → PSt → Option Expr × PSt
  | 0, _, s => (none, s)
  | fuel + 1, left, s =>
    if s.cur.ty = .ltTok || s.cur.ty = .gtTok || s.cur.ty = .leTok ||
        s.cur.ty = .geTok then
      let op := (binOfTok s.cur.ty).getD .blt
      match parseAdd fuel s.adv with
      | (none, s2) => (none, s2)
      | (some right, s2) => parseRelLoop fuel (.binary op left right) s2
    else (some left, s)

/-- Embeds `parse_relational` (`arena.c`). -/
def parseRel : Nat → PSt → Option Expr × PSt
  | 0, s => (none, s)
  | fuel + 1, s =>
    match parseAdd fuel s with
    | (none, s1) => (none, s1)
    | (some left, s1) => parseRelLoop fuel left s1

/-- The `while` loop of `parse_equality`. -/
def parseEqLoop : Nat → Expr → PSt → Option Expr × PSt
  | 0, _, s => (none, s)
  | fuel + 1, left, s =>
    if s.cur.ty = .eqeq || s.cur.ty = .bangeq then
      let op := (binOfTok s.cur.ty).getD .beq
      match parseRel fuel s.adv with
      | (none, s2) => (none, s2)
      | (some right, s2) => parseEqLoop fuel (.binary op left right) s2
    else (some left, s)

/-- Embeds `parse_equality` (`arena.c`). -/
def parseEquality : Nat → PSt → Option Expr × PSt
  | 0, s => (none, s)
  | fuel + 1, s =>
    match parseRel fuel s with
    | (none, s1) => (none, s1)
    | (some left, s1) => parseEqLoop fuel left s1

/-- The `while` loop of `parse_logical_and`. -/
def parseAndLoop : Nat → Expr → PSt → Option Expr × PSt
  | 0, _, s => (none, s)
  | fuel + 1, left, s =>
    if s.cur.ty = .ampamp then
      match parseEquality fuel s.adv with
      | (none, s2) => (none, s2)
      | (some right, s2) => parseAndLoop fuel (.binary .land left right) s2
    else (some left, s)

/-- Embeds `parse_logical_and` (`arena.c`). -/
def parseLogicalAnd : Nat → PSt → Option Expr × PSt
  | 0, s => (none, s)
  | fuel + 1, s =>
    match parseEquality fuel s with
    | (none, s1) => (none, s1)
    | (some left, s1) => parseAndLoop fuel left s1

/-- The `while` loop of `parse_logical_or`. -/
def parseOrLoop : Nat → Expr → PSt → Option Expr × PSt
  | 0, _, s => (none, s)
  | fuel + 1, left, s =>
    if s.cur.ty = .pipepipe then
      match parseLogicalAnd fuel s.adv with
      | (none, s2) => (none, s2)
      | (some right, s2) => parseOrLoop fuel (.binary .lor left right) s2
    else (some left, s)

/-- Embeds `parse_logical_or` (`arena.c`). -/
def parseLogicalOr : Nat → PSt → Option Expr × PSt
  | 0, s => (none, s)
  | fuel + 1, s =>
    match parseLogicalAnd fuel s with
    | (none, s1) => (none, s1)
    | (some left, s1) => parseOrLoop fuel left s1

/-- Embeds `parse_ternary_expression` (`arena.c`): right-associative
`c ? t : f`; a missing `:` is diagnosed as 2001. -/
def parseTernaryE : Nat → PSt → Option Expr × PSt
  | 0, s => (none, s)
  | fuel + 1, s =>
    match parseLogicalOr fuel s with
    | (none, s1) => (none, s1)
    | (some c, s1) =>
      match s1.matchTok .question with
      | (true, s2) =>
        match parseExpr fuel s2 with
        | (none, s3) => (none, s3)
        | (some t, s3) =>
          match s3.matchTok .colon with
          | (false, s4) => (none, s4.report 2001)
          | (true, s4) =>
            match parseTernaryE fuel s4 with
            | (none, s5) => (none, s5)
            | (some fe, s5) => (some (.ternary c t fe), s5)
      | (false, s2) => (some c, s2)

/-- Embeds `parse_assignment_expression` (`arena.c`): right-associative
`=`; a non-`VarRef` target is diagnosed as 3005.  (When the left
operand failed to parse and the current token is `=`, the C code
dereferences the null `left`; that path is modelled as a failure.) -/
def parseAssignE : Nat → PSt → Option Expr × PSt
  | 0, s => (none, s)
  | fuel + 1, s =>
    let (left, s1) := parseTernaryE fuel s
    match s1.matchTok .assignEq with
    | (true, s2) =>
      match parseAssignE fuel s2 with
      | (none, s3) => (none, s3)
      | (some right, s3) =>
        match left with
        | some (.varRef name _ _) =>
          (some (.assign name s3.cur.line s3.cur.col right), s3)
        | some _ => (none, s3.report 3005)
        | none => (none, s3)
    | (false, s2) => (left, s2)

/-- Embeds `parse_expression` (`arena.c`): expression = assignment. -/
def parseExpr : Nat → PSt → Option Expr × PSt
  | 0, s => (none, s)
  | fuel + 1, s => parseAssignE fuel s

end

mutual

/-- Embeds `parse_declaration` (`arena.c`):
`"int" IDENT ("=" expression)? ";"`.  The node's location is the
identifier token's. -/
def parseDecl : Nat → PSt → Option Stmt × PSt
  | 0, s => (none, s)
  | fuel + 1, s =>
    match s.matchTok .kwInt with
    | (false, s1) => (none, s1.report 2001)
    | (true, s1) =>
      if s1.cur.ty = .ident then
        let t := s1.cur
        let s2 := s1.adv
        match s2.matchTok .assignEq with
        | (true, s3) =>
          match parseExpr fuel s3 with
          | (none, s4) => (none, s4)
          | (some init, s4) =>
            match s4.matchTok .semi with
            | (true, s5) =>
              (some (.decl (String.mk t.text) t.line t.col (some init)), s5)
            | (false, s5) => (none, s5.report 2003)
        | (false, s3) =>
          match s3.matchTok .semi with
          | (true, s4) => (some (.decl (String.mk t.text) t.line t.col none), s4)
          | (false, s4) => (none, s4.report 2003)
      else (none, s1.report 2001)

/-- Embeds `parse_if_statement` (`arena.c`). -/
def parseIf : Nat → PSt → Option Stmt × PSt
  | 0, s => (none, s)
  | fuel + 1, s =>
    match s.matchTok .kwIf with
    | (false, s1) => (none, s1.report 2001)
    | (true, s1) =>
      match s1.matchTok .lparen with
      | (false, s2) => (none, s2.report 2005)
      | (true, s2) =>
        match parseExpr fuel s2 with
        | (none, s3) => (none, s3)
        | (some cond, s3) =>
          match s3.matchTok .rparen with
          | (false, s4) => (none, s4.report 2005)
          | (true, s4) =>
            match parseStmt fuel s4 with
            | (none, s5) => (none, s5)
            | (some thn, s5) =>
              match s5.matchTok .kwElse with
              | (true, s6) =>
                match parseStmt fuel s6 with
                | (none, s7) => (none, s7)
                | (some els, s7) => (some (.sif cond thn (some els)), s7)
              | (false, s6) => (some (.sif cond thn none), s6)

/-- Embeds `parse_while_statement` (`arena.c`). -/
def parseWhile : Nat → PSt → Option Stmt × PSt
  | 0, s => (none, s)
  | fuel + 1, s =>
    match s.matchTok .kwWhile with
    | (false, s1) => (none, s1.report 2001)
    | (true, s1) =>
      match s1.matchTok .lparen with
      | (false, s2) => (none, s2.report 2005)
      | (true, s2) =>
        match parseExpr fuel s2 with
        | (none, s3) => (none, s3)
        | (some cond, s3) =>
          match s3.matchTok .rparen with
          | (false, s4) => (none, s4.report 2005)
          | (true, s4) =>
            match parseStmt fuel s4 with
            | (none, s5) => (none, s5)
            | (some body, s5) => (some (.swhile cond body), s5)

/-- The statement loop of `parse_compound_statement` (`arena.c`):
parse statements until `}` or EOF; at most `MAX_STATEMENTS` (256) are
accepted (2002 beyond that, failing the whole compound); on a failed
statement, synchronize, and if the cursor did not advance relative to
the saved token, force one token of advance.  (`stmtLoopStep` below
packages one iteration of this loop; `parseCmpItems_eq_loopStep` ties
the two.) -/
def parseCmpItems : Nat → List Stmt → PSt → Option (List Stmt) × PSt
  | 0, _, s => (none, s)
  | fuel + 1, acc, s =>
    if s.cur.ty = .rbrace || s.cur.ty = .eof then (some acc, s)
    else
      let prevOff := s.cur.off
      match parseStmt fuel s with
      | (some st, s1) =>
        if acc.length ≥ 256 then (none, s1.report 2002)
        else parseCmpItems fuel (acc ++ [st]) s1
      | (none, s1) =>
        let s2 := s1.sync
        parseCmpItems fuel acc (if s2.cur.off = prevOff then s2.adv else s2)

/-- Embeds `parse_compound_statement` (`arena.c`). -/
def parseCompound : Nat → PSt → Option Stmt × PSt
  | 0, s => (none, s)
  | fuel + 1, s =>
    match s.matchTok .lbrace with
    | (false, s1) => (none, s1.report 2004)
    | (true, s1) =>
      match parseCmpItems fuel [] s1 with
      | (none, s2) => (none, s2)
      | (some items, s2) =>
        match s2.matchTok .rbrace with
        | (true, s3) => (some (.block items), s3)
        | (false, s3) => (none, s3.report 2004)

/-- The statement loop of `parse_function` (`arena.c`): identical to
the compound-statement loop but without the `MAX_STATEMENTS` check. -/
def parseFnItems : Nat → List Stmt → PSt → List Stmt × PSt
  | 0, acc, s => (acc, s)
  | fuel + 1, acc, s =>
    if s.cur.ty = .rbrace || s.cur.ty = .eof then (acc, s)
    else
      let prevOff := s.cur.off
      match parseStmt fuel s with
      | (some st, s1) => parseFnItems fuel (acc ++ [st]) s1
      | (none, s1) =>
        let s2 := s1.sync
        parseFnItems fuel acc (if s2.cur.off = prevOff then s2.adv else s2)

/-- Embeds `parse_statement` (`arena.c`): dispatch on the current
token; `return` statements synchronize after a missing semicolon, the
fallback expression statement does not; the literal identifier
`return0` is diagnosed as 2002 with a suggestion. -/
def parseStmt : Nat → PSt → Option Stmt × PSt
  | 0, s => (none, s)
  | fuel + 1, s =>
    if s.cur.ty = .kwInt then parseDecl fuel s
    else if s.cur.ty = .kwIf then parseIf fuel s
    else if s.cur.ty = .kwWhile then parseWhile fuel s
    else if s.cur.ty = .lbrace then parseCompound fuel s
    else
      match s.matchTok .kwReturn with
      | (true, s1) =>
        match parseExpr fuel s1 with
        | (none, s2) => (none, s2)
        | (some e, s2) =>
          match s2.matchTok .semi with
          | (true, s3) => (some (.ret e), s3)
          | (false, s3) => (none, ((s3.report 2003).sync))
      | (false, s1) =>
        if s1.cur.ty = .ident && s1.cur.text = "return0".toList then
          (none, (s1.report 2002).sync)
        else
          match parseExpr fuel s1 with
          | (none, s2) => (none, s2)
          | (some e, s2) =>
            match s2.matchTok .semi with
            | (true, s3) => (some (.exprStmt e), s3)
            | (false, s3) => (none, s3.report 2003)

end

/-- One iteration of the statement-list loops of
`parse_compound_statement` and `parse_function` (`arena.c`): `none`
when the loop guard exits (current token `}` or EOF); otherwise save
the current token, try `parse_statement`, and on failure synchronize
and, if the cursor has not advanced relative to the saved token
(`current_token.start == prev_token.start`, compared here as byte
offsets), force one token of advance. -/
def stmtLoopStep (fuel : Nat) (s : PSt) : Option (Option Stmt × PSt) :=
  if s.cur.ty = .rbrace || s.cur.ty = .eof then none
  else
    let prevOff := s.cur.off
    match parseStmt fuel s with
    | (some st, s1) => some (some st, s1)
    | (none, s1) =>
      let s2 := s1.sync
      some (none, if s2.cur.off = prevOff then s2.adv else s2)

/-- Embeds `parse_function` (`arena.c`):
`"int" IDENT "(" ")" "{" statement* "}"`. -/
def parseFunction : Nat → PSt → Option Program × PSt
  | 0, s => (none, s)
  | fuel + 1, s =>
    match s.matchTok .kwInt with
    | (false, s1) => (none, (s1.report 2001).sync)
    | (true, s1) =>
      if s1.cur.ty = .ident then
        let name := String.mk s1.cur.text
        let s2 := s1.adv
        match s2.matchTok .lparen with
        | (false, s3) => (none, (s3.report 2005).sync)
        | (true, s3) =>
          match s3.matchTok .rparen with
          | (false, s4) => (none, (s4.report 2005).sync)
          | (true, s4) =>
            match s4.matchTok .lbrace with
            | (false, s5) => (none, (s5.report 2004).sync)
            | (true, s5) =>
              let (items, s6) := parseFnItems fuel [] s5
              match s6.matchTok .rbrace with
              | (true, s7) => (some ⟨name, items⟩, s7)
              | (false, s7) => (none, (s7.report 2004).sync)
      else (none, (s1.report 2001).sync)

/-- Embeds `parser_parse_program` (`arena.c`): one function, then the
stream must be at EOF (2002 otherwise). -/
def parseProgram (fuel : Nat) (s : PSt) : Option Program × PSt :=
  match parseFunction fuel s with
  | (none, s1) => (none, s1)
  | (some p, s1) =>
    if s1.cur.ty = .eof then (some p, s1)
    else (none, s1.report 2002)

/-! ## Semantic analyzer (the newest `semantic.c`, `unnamed/part_004`)

State: a stack of scopes, innermost first (`SymbolTable` with parent
chain), the in-loop flag, and the error sink.  Scope contents are
name lists in insertion order. -/

/-- Embeds `symbol_table_lookup`: search the current scope, then the
parents. -/
def scopesLookup : List (List String) → String → Bool
  | [], _ => false
  | sc :: rest, n => if sc.contains n then true else scopesLookup rest n

/-- Embeds `symbol_table_lookup_current_scope`: innermost scope only
(redefinition check). -/
def scopesLookupCur : List (List String) → String → Bool
  | [], _ => false
  | sc :: _, n => sc.contains n

/-- Embeds `symbol_table_add`: append to the innermost scope. -/
def scopesAdd : List (List String) → String → List (List String)
  | [], n => [[n]]
  | sc :: rest, n => (sc ++ [n]) :: rest

/-- Embeds `analyze_expression` (`part_004`): undefined variable
references and assignment targets are 3001 at the node's location.
A ternary hits the `default` case of the C `switch` and is accepted
without analyzing its subexpressions. -/
def analyzeExpr (sc : List (List String)) : Expr → Bool × List CompErr
  | .intConst _ => (true, [])
  | .varRef n l c =>
    if scopesLookup sc n then (true, []) else (false, [⟨3001, l, c⟩])
  | .unary _ e => analyzeExpr sc e
  | .binary _ l r =>
    let (bl, el) := analyzeExpr sc l
    let (br, er) := analyzeExpr sc r
    (bl && br, el ++ er)
  | .assign n l c v =>
    if scopesLookup sc n then analyzeExpr sc v else (false, [⟨3001, l, c⟩])
  | .ternary _ _ _ => (true, [])

/-- Is this statement node a `VarDecl` (for the 3009 dependent-
statement check)?  Returns its location when so. -/
def declLoc : Stmt → Option (Nat × Nat)
  | .decl _ l c _ => some (l, c)
  | _ => none

mutual

/-- Embeds `analyze_statement` (`part_004`).  `inLoop` is the
`ctx->in_loop` flag: `while` bodies are analyzed with it set and the C
code restores the saved value afterwards, which here is the caller
continuing with its own `inLoop`.  Returns the success flag, the
updated scope stack (declarations persist in the enclosing scope), and
the appended diagnostics. -/
def analyzeStmt (inLoop : Bool) (sc : List (List String)) :
    Stmt → Bool × List (List String) × List CompErr
  | .ret e =>
    let (ok, es) := analyzeExpr sc e
    (ok, sc, es)
  | .decl n l c init =>
    if scopesLookupCur sc n then (false, sc, [⟨3004, l, c⟩])
    else
      let sc' := scopesAdd sc n
      match init with
      | some i =>
        let (ok, es) := analyzeExpr sc' i
        (ok, sc', es)
      | none => (true, sc', [])
  | .exprStmt e =>
    let (ok, es) := analyzeExpr sc e
    (ok, sc, es)
  | .block ss =>
    let (ok, _, es) := analyzeStmtList inLoop ([] :: sc) ss
    (ok, sc, es)
  | .sif c thn els =>
    let (okc, ec) := analyzeExpr sc c
    let (okt9, et9) :=
      match declLoc thn with
      | some (l, cl) => (false, [CompErr.mk 3009 l cl])
      | none => (true, [])
    let (oke9, ee9) :=
      match els.bind declLoc with
      | some (l, cl) => (false, [CompErr.mk 3009 l cl])
      | none => (true, [])
    let (okt, sc1, et) := analyzeStmt inLoop sc thn
    let (oke, sc2, ee) :=
      match els with
      | some e => analyzeStmt inLoop sc1 e
      | none => (true, sc1, [])
    (okc && okt9 && oke9 && okt && oke, sc2, ec ++ et9 ++ ee9 ++ et ++ ee)
  | .swhile c body =>
    let (okc, ec) := analyzeExpr sc c
    let (okb, sc1, eb) := analyzeStmt true sc body
    (okc && okb, sc1, ec ++ eb)
  | .sbreak l c =>
    if inLoop then (true, sc, []) else (false, sc, [⟨3007, l, c⟩])
  | .scontinue l c =>
    if inLoop then (true, sc, []) else (false, sc, [⟨3008, l, c⟩])

/-- The statement loop of `analyze_statement`'s compound case and of
`semantic_analyze`: analysis continues past failures so every error is
collected. -/
def analyzeStmtList (inLoop : Bool) (sc : List (List String)) :
    List Stmt → Bool × List (List String) × List CompErr
  | [] => (true, sc, [])
  | st :: rest =>
    let (ok1, sc1, e1) := analyzeStmt inLoop sc st
    let (ok2, sc2, e2) := analyzeStmtList inLoop sc1 rest
    (ok1 && ok2, sc2, e1 ++ e2)

end

/-- Embeds `semantic_analyze` (`part_004`): fresh root scope, in-loop
flag clear, analyze every top-level statement. -/
def semantic_analyze (p : Program) : Bool × List CompErr :=
  let (ok, _, es) := analyzeStmtList false [[]] p.stmts
  (ok, es)

/-! ## IR lowering (`src/ir.c`)

The IR is a hierarchy of control-flow regions holding stack-oriented
instructions.  We record each region's contents as the *structural
stream* (spec §4.6): the source-order interleaving of its raw
instructions and its embedded child regions.  The C code stores the two
in separate arrays (`instructions` / `children`); the stream refines
that with the creation order, which the spec makes the execution and
serialization order. -/

/-- IR opcodes actually produced by `ir_generate_*` (a subset of the
`IROpcode` catalog in `compiler.h`), with the operand each carries. -/
inductive Instr
  | constI (v : Int)
  | loadL (k : Nat)
  | storeL (k : Nat)
  | negI | notI | bnotI
  | addI | subI | mulI | divI | modI
  | eqI | neI | ltI | gtI | leI | geI
  | landI | lorI
  | popI | retI
  | brkI | contI
deriving DecidableEq, Repr

mutual

/-- One element of a region's structural stream: a raw instruction or
an embedded child region. -/
inductive Item
  | ins (i : Instr)
  | reg (r : Region)

/-- A control-flow region (`Region` in `compiler.h`).  An `If` region
holds its condition's stream in its own body (`ir.c` lowers the
condition with `current_region` set to the `if` region) plus the
distinguished then/else sub-regions.  A `Loop` region holds a condition
stream and a body stream. -/
inductive Region
  | ifR (isExpr : Bool) (cond thn : List Item) (els : Option (List Item))
  | loopR (cond body : List Item)

end

/-- The opcode a `binary_op` lowers to (`ir_generate_expression`,
`AST_BINARY_OP` case; `&&` and `||` take the `IR_LOGICAL_AND` /
`IR_LOGICAL_OR` fallback). -/
def instrOfBinOp : BinOp → Instr
  | .add => .addI
  | .sub => .subI
  | .mul => .mulI
  | .div => .divI
  | .mod => .modI
  | .beq => .eqI
  | .bne => .neI
  | .blt => .ltI
  | .bgt => .gtI
  | .ble => .leI
  | .bge => .geI
  | .land => .landI
  | .lor => .lorI

/-- The opcode a `unary_op` lowers to. -/
def instrOfUnOp : UnOp → Instr
  | .neg => .negI
  | .lnot => .notI
  | .bnot => .bnotI

/-- Embeds `symbol_table_find` (`ir.c`): innermost scope first, and
within a scope the first inserted match wins. -/
def findVar : List (List (String × Nat)) → String → Option Nat
  | [], _ => none
  | sc :: rest, n =>
    match sc.find? (fun p => p.1 = n) with
    | some p => some p.2
    | none => findVar rest n

/-- Embeds `ir_generate_expression` (`ir.c`).  Notable behaviours kept
from the source: a variable reference or assignment target that is not
in scope emits nothing for the missing local (`if (var)`); `&&`/`||`
lower both operands followed by `IR_LOGICAL_AND`/`IR_LOGICAL_OR` (the
"fall back to regular binary operation" path — no `If` region, no
short-circuit); a ternary builds an `If` region whose body holds the
condition and whose then/else sub-regions hold the branches.  The
ternary's `is_expression` flag is never assigned in the `ir.c` of the
snapshot; the spec (§4.6) marks such regions expression-typed, so the
flag is modelled as `true` from the spec. -/
def lowerExpr (sc : List (List (String × Nat))) : Expr → List Item
  | .intConst v => [.ins (.constI v)]
  | .varRef n _ _ =>
    match findVar sc n with
    | some k => [.ins (.loadL k)]
    | none => []
  | .unary op e => lowerExpr sc e ++ [.ins (instrOfUnOp op)]
  | .binary op l r =>
    lowerExpr sc l ++ lowerExpr sc r ++ [.ins (instrOfBinOp op)]
  | .assign n _ _ v =>
    lowerExpr sc v ++
      (match findVar sc n with
        | some k => [.ins (.storeL k), .ins (.loadL k)]
        | none => [])
  | .ternary c t f =>
    [.reg (.ifR true (lowerExpr sc c) (lowerExpr sc t) (some (lowerExpr sc f)))]

/-- Lowering state (`IRContext` + the current function's locals): the
scope stack mapping names to local slots, and the running count of
allocated `i32` local slots. -/
structure IRSt where
  scopes : List (List (String × Nat))
  localCount : Nat

mutual

/-- Embeds `ir_generate_statement` (`ir.c`) for the statement forms the
snapshot's `ir.c` defines (return, declaration, assignment/binary
expression statements, `if`), and — `Modelled from the spec:` §4.6 —
the forms whose lowering code is absent from the snapshot (`while`
loops, `break`/`continue`, compound statements; the snapshot only
declares them in `compiler.h` and documents them in
IMPLEMENTATION_STATUS.md):
* `while (c) body` → a `Loop` region with condition and body streams;
* `break`/`continue` → `IR_BREAK`/`IR_CONTINUE`;
* compound → push a symbol scope, lower children into the current
  region, pop the scope.
Expression statements other than assignments and binary operations hit
the C `switch`'s `default` case and emit nothing. -/
def lowerStmt (st : IRSt) : Stmt → List Item × IRSt
  | .ret e => (lowerExpr st.scopes e ++ [.ins .retI], st)
  | .decl n _ _ init =>
    let k := st.localCount
    let scopes' :=
      match st.scopes with
      | [] => [[(n, k)]]
      | sc :: rest => (sc ++ [(n, k)]) :: rest
    let st' : IRSt := ⟨scopes', k + 1⟩
    match init with
    | some i => (lowerExpr scopes' i ++ [.ins (.storeL k)], st')
    | none => ([], st')
  | .exprStmt e =>
    match e with
    | .assign _ _ _ _ => (lowerExpr st.scopes e ++ [.ins .popI], st)
    | .binary _ _ _ => (lowerExpr st.scopes e ++ [.ins .popI], st)
    | _ => ([], st)
  | .sif c thn els =>
    let cond := lowerExpr st.scopes c
    let (ti, st1) := lowerStmt st thn
    match els with
    | some e =>
      let (ei, st2) := lowerStmt st1 e
      ([.reg (.ifR false cond ti (some ei))], st2)
    | none => ([.reg (.ifR false cond ti none)], st1)
  | .swhile c body =>
    let cond := lowerExpr st.scopes c
    let (bi, st1) := lowerStmt st body
    ([.reg (.loopR cond bi)], st1)
  | .sbreak _ _ => ([.ins .brkI], st)
  | .scontinue _ _ => ([.ins .contI], st)
  | .block ss =>
    let (items, st1) := lowerStmtList ⟨[] :: st.scopes, st.localCount⟩ ss
    (items, ⟨st.scopes, st1.localCount⟩)

/-- Lower a statement sequence, threading the lowering state. -/
def lowerStmtList (st : IRSt) : List Stmt → List Item × IRSt
  | [] => ([], st)
  | s :: rest =>
    let (i1, st1) := lowerStmt st s
    let (i2, st2) := lowerStmtList st1 rest
    (i1 ++ i2, st2)

end

mutual

/-- Embeds `region_has_return` (`ir.c`): does the stream contain an
`IR_RETURN`, searching child regions recursively? -/
def hasRet : List Item → Bool
  | [] => false
  | .ins i :: rest => (i = .retI) || hasRet rest
  | .reg r :: rest => hasRetR r || hasRet rest

def hasRetR : Region → Bool
  | .ifR _ cond thn els =>
    hasRet cond || hasRet thn || (match els with | some e => hasRet e | none => false)
  | .loopR cond body => hasRet cond || hasRet body

end

/-- An IR function (`Function` in `compiler.h`): name, number of `i32`
local slots, and the body region's structural stream. -/
structure IRFunc where
  name : String
  localCount : Nat
  items : List Item

/-- An IR module: the functions list (`IRModule`). -/
structure IRModuleL where
  functions : List IRFunc

/-- Embeds `ir_generate` (`ir.c`): one function from the program node;
lower every top-level statement into the `Function` root region; append
an implicit `const 0; return` when no `IR_RETURN` was generated. -/
def ir_generate (p : Program) : IRFunc :=
  let (items, st) := lowerStmtList ⟨[[]], 0⟩ p.stmts
  let items' :=
    if hasRet items then items
    else items ++ [.ins (.constI 0), .ins .retI]
  ⟨p.fname, st.localCount, items'⟩

/-! ## WASM emitter (`src/codegen.c`)

Bytes are naturals below 256; the output is the byte list the C code
writes to the file. -/

/-- Embeds `buffer_write_leb128_u32` (`codegen.c`): unsigned LEB128.
Fuel bounds the 7-bit groups; 8 covers every `uint32_t` (at most 5
groups), and every call site passes a value below `2^32`. -/
def ulebAux : Nat → Nat → List Nat
  | 0, n => [n % 128]
  | fuel + 1, n =>
    if n < 128 then [n]
    else (n % 128 + 128) :: ulebAux fuel (n / 128)

def uleb (n : Nat) : List Nat := ulebAux 8 n

/-- The `uint32_t` cast applied where the C passes a size or count. -/
def ulebU32 (n : Nat) : List Nat := uleb (n % 2 ^ 32)

/-- Little-endian 7-bit-group decoding, for stating that a LEB128
length field denotes the count it precedes. -/
def ulebVal : List Nat → Nat
  | [] => 0
  | b :: rest => b % 128 + 128 * ulebVal rest

/-- Embeds `buffer_write_leb128_i32` (`codegen.c`): signed LEB128 of a
32-bit constant.  `value >>= 7` on a negative `int32_t` is an
arithmetic shift, i.e. floor division by 128.  Fuel 16 covers every
32-bit input (at most 5 groups). -/
def slebAux : Nat → Int → List Nat
  | 0, _ => []
  | fuel + 1, v =>
    let byte := (v % 128).toNat
    let v' := Int.fdiv v 128
    if (v' = 0 && byte < 64) || (v' = -1 && 64 ≤ byte) then [byte]
    else (byte + 128) :: slebAux fuel v'

def sleb (v : Int) : List Nat := slebAux 16 v

/-- Embeds `buffer_write_u32` (`codegen.c`): 4 bytes little-endian. -/
def u32le (n : Nat) : List Nat :=
  [n % 256, n / 256 % 256, n / 2 ^ 16 % 256, n / 2 ^ 24 % 256]

/-- Embeds `buffer_write_string` (`codegen.c`): LEB128 length, then the
UTF-8 bytes. -/
def writeStr (s : String) : List Nat :=
  ulebU32 s.length ++ (s.toList.map Char.toNat)

/-- Embeds `emit_instruction` (`codegen.c`): per-opcode byte sequences.
`IR_NEG` is `i32.const -1; i32.mul`, `IR_BITWISE_NOT` is
`i32.const -1; i32.xor`, `IR_LOGICAL_NOT` is `i32.eqz`;
`IR_LOGICAL_AND`/`IR_LOGICAL_OR` are emitted as the bitwise
`i32.and`/`i32.or` (the "for now" comment in the source).  `IR_BREAK`
and `IR_CONTINUE` hit the `default` case of the C `switch` and emit
nothing. -/
def emitInstr : Instr → List Nat
  | .constI v => 0x41 :: sleb v
  | .loadL k => 0x20 :: ulebU32 k
  | .storeL k => 0x21 :: ulebU32 k
  | .negI => [0x41, 0x7F, 0x6C]
  | .notI => [0x45]
  | .bnotI => [0x41, 0x7F, 0x73]
  | .addI => [0x6A]
  | .subI => [0x6B]
  | .mulI => [0x6C]
  | .divI => [0x6D]
  | .modI => [0x6F]
  | .eqI => [0x46]
  | .neI => [0x47]
  | .ltI => [0x48]
  | .gtI => [0x4A]
  | .leI => [0x4C]
  | .geI => [0x4E]
  | .landI => [0x71]
  | .lorI => [0x72]
  | .popI => [0x1A]
  | .retI => [0x0F]
  | .brkI => []
  | .contI => []

mutual

/-- Serialize a structural stream (spec §4.6: "the emitter walks this
stream as a single sequence").  The per-opcode bytes follow
`emit_instruction` in `codegen.c`; the `If` frame follows `emit_region`
(`REGION_IF` branch): condition bytes, `if` (0x04) with result type
0x7F when expression-typed and 0x40 otherwise, then-body, `else` (0x05)
when an else-region exists, `end` (0x0B). -/
def emitItems : List Item → List Nat
  | [] => []
  | .ins i :: rest => emitInstr i ++ emitItems rest
  | .reg r :: rest => emitRegion r ++ emitItems rest

/-- Region frames.  The `Loop` frame is `Modelled from the spec:` §4.7
(the `REGION_LOOP` branch of `emit_region` is absent from the
snapshot's `codegen.c`): `block 0x40`, `loop 0x40`, condition,
`i32.eqz` (0x45), `br_if 1` (0x0D 0x01, break the outer block), body,
`br 0` (0x0C 0x00, continue the inner loop), `end`, `end`. -/
def emitRegion : Region → List Nat
  | .ifR isExpr cond thn els =>
    emitItems cond ++ [0x04, if isExpr then 0x7F else 0x40] ++ emitItems thn ++
      (match els with
        | some e => 0x05 :: emitItems e
        | none => []) ++ [0x0B]
  | .loopR cond body =>
    [0x02, 0x40, 0x03, 0x40] ++ emitItems cond ++ [0x45, 0x0D, 0x01] ++
      emitItems body ++ [0x0C, 0x00, 0x0B, 0x0B]

end

/-- The type-section payload (`emit_type_section`): one function type
`[] -> [i32]`. -/
def typePayload : List Nat := [0x01, 0x60, 0x00, 0x01, 0x7F]

/-- The function-section payload (`emit_function_section`): one
function of type 0. -/
def funcPayload : List Nat := [0x01, 0x00]

/-- The export-section payload (`emit_export_section`): one export,
the constant name `"main"`, kind 0x00 (function), function index 0 —
the function's declared name is not consulted. -/
def exportPayload : List Nat :=
  [0x01] ++ writeStr "main" ++ [0x00] ++ [0x00]

/-- One function body in the code section (`emit_code_section`): the
local-group declarations (one group of `local_count` `i32` locals, or
zero groups), the serialized body region, the `i32.const 0; return`
tail guard, and `end`. -/
def codeBody (f : IRFunc) : List Nat :=
  (if 0 < f.localCount then [0x01] ++ ulebU32 f.localCount ++ [0x7F] else [0x00]) ++
    emitItems f.items ++ [0x41, 0x00, 0x0F] ++ [0x0B]

/-- The code-section payload (`emit_code_section`): function count,
then per function the LEB128 body size followed by the body bytes. -/
def codePayload (m : IRModuleL) : List Nat :=
  ulebU32 m.functions.length ++
    (m.functions.map fun f => ulebU32 (codeBody f).length ++ codeBody f).flatten

/-- Embeds `emit_section_header` followed by the payload copy: section
id byte, LEB128 payload size, payload bytes. -/
def wsection (id : Nat) (payload : List Nat) : List Nat :=
  id :: ulebU32 payload.length ++ payload

/-- Embeds `codegen_emit_wasm` (`codegen.c`): magic `\0asm`
(0x6d736100 written little-endian), version 1, then the type, function,
export and code sections.  An empty module writes nothing (`none`). -/
def codegen_emit_wasm (m : IRModuleL) : Option (List Nat) :=
  if m.functions.length = 0 then none
  else some (u32le 0x6d736100 ++ u32le 0x00000001 ++
    wsection 1 typePayload ++ wsection 3 funcPayload ++
    wsection 7 exportPayload ++ wsection 10 (codePayload m))

/-! ## Execution semantics of the emitted code

A fuel-based evaluator for a function body's structural stream, with
the WASM i32 semantics of the bytes each element serializes to: values
are signed 32-bit integers, locals start at zero, the `If` frame pops
the condition, and the `Loop` frame (block/loop/br_if/br) behaves as:
evaluate the condition; exit when it is zero; otherwise run the body
and repeat.  `break`/`continue` outcomes propagate to the enclosing
loop frame. -/

/-- Outcome of running a stream: fall through with the machine state,
return with a value, or a propagating break/continue carrying the
locals at the branch. -/
inductive Outcome
  | fall (locals stack : List Int)
  | retv (v : Int)
  | brko (locals : List Int)
  | conto (locals : List Int)

/-- i32 signed division (`i32.div_s`): truncated; traps (`none`) on a
zero divisor or on `-2^31 / -1`. -/
def divS (a b : Int) : Option Int :=
  if b = 0 then none
  else if a = -(2 ^ 31) && b = -1 then none
  else some (Int.tdiv a b)

/-- i32 signed remainder (`i32.rem_s`): sign of the dividend; traps on
a zero divisor. -/
def remS (a b : Int) : Option Int :=
  if b = 0 then none else some (Int.tmod a b)

/-- One plain instruction's effect on locals and stack (`none` = trap
or stack underflow). -/
def stepInstr (i : Instr) (locals stack : List Int) :
    Option (List Int × List Int) :=
  match i, stack with
  | .constI v, st => some (locals, v :: st)
  | .loadL k, st => some (locals, locals.getD k 0 :: st)
  | .storeL k, v :: st => some (locals.set k v, st)
  | .negI, v :: st => some (locals, wrap32 (v * -1) :: st)
  | .notI, v :: st => some (locals, (if v = 0 then 1 else 0) :: st)
  | .bnotI, v :: st => some (locals, s32 (Nat.xor (u32 v) (2 ^ 32 - 1)) :: st)
  | .addI, b :: a :: st => some (locals, wrap32 (a + b) :: st)
  | .subI, b :: a :: st => some (locals, wrap32 (a - b) :: st)
  | .mulI, b :: a :: st => some (locals, wrap32 (a * b) :: st)
  | .divI, b :: a :: st => (divS a b).map fun q => (locals, wrap32 q :: st)
  | .modI, b :: a :: st => (remS a b).map fun r => (locals, wrap32 r :: st)
  | .eqI, b :: a :: st => some (locals, (if a = b then 1 else 0) :: st)
  | .neI, b :: a :: st => some (locals, (if a = b then 0 else 1) :: st)
  | .ltI, b :: a :: st => some (locals, (if a < b then 1 else 0) :: st)
  | .gtI, b :: a :: st => some (locals, (if b < a then 1 else 0) :: st)
  | .leI, b :: a :: st => some (locals, (if a ≤ b then 1 else 0) :: st)
  | .geI, b :: a :: st => some (locals, (if b ≤ a then 1 else 0) :: st)
  | .landI, b :: a :: st => some (locals, s32 (Nat.land (u32 a) (u32 b)) :: st)
  | .lorI, b :: a :: st => some (locals, s32 (Nat.lor (u32 a) (u32 b)) :: st)
  | .popI, _ :: st => some (locals, st)
  | _, _ => none

mutual

/-- Run a structural stream.  `IR_RETURN` pops the result;
`IR_BREAK`/`IR_CONTINUE` abandon the rest of the stream and propagate;
an `If` region evaluates its condition stream, pops the value, and runs
the chosen branch; a `Loop` region runs its frame. -/
def runItems : Nat → List Int → List Int → List Item → Option Outcome
  | _, locals, stack, [] => some (.fall locals stack)
  | 0, _, _, _ :: _ => none
  | fuel + 1, locals, stack, .ins i :: rest =>
    match i with
    | .retI =>
      match stack with
      | v :: _ => some (.retv v)
      | [] => none
    | .brkI => some (.brko locals)
    | .contI => some (.conto locals)
    | _ =>
      match stepInstr i locals stack with
      | some (l', s') => runItems fuel l' s' rest
      | none => none
  | fuel + 1, locals, stack, .reg r :: rest =>
    match r with
    | .ifR _ cond thn els =>
      match runItems fuel locals stack cond with
      | some (.fall l1 (c :: s1)) =>
        let branch := if c = 0 then els.getD [] else thn
        match runItems fuel l1 s1 branch with
        | some (.fall l2 s2) => runItems fuel l2 s2 rest
        | other => other
      | some (.fall _ []) => none
      | other => other
    | .loopR cond body =>
      match runLoop fuel locals stack cond body with
      | some (.fall l1 s1) => runItems fuel l1 s1 rest
      | other => other

/-- The loop frame: condition, `i32.eqz`, `br_if 1` (exit), body,
`br 0` (repeat).  A `break` outcome exits the frame, a `continue`
outcome re-enters at the condition; the branch discards the operand
stack back to the frame's entry, as WASM `br` does. -/
def runLoop : Nat → List Int → List Int → List Item → List Item →
    Option Outcome
  | 0, _, _, _, _ => none
  | fuel + 1, locals, stack, cond, body =>
    match runItems fuel locals stack cond with
    | some (.fall l1 (c :: s1)) =>
      if c = 0 then some (.fall l1 s1)
      else
        match runItems fuel l1 s1 body with
        | some (.fall l2 s2) => runLoop fuel l2 s2 cond body
        | some (.conto l2) => runLoop fuel l2 s1 cond body
        | some (.brko l2) => some (.fall l2 s1)
        | other => other
    | some (.fall _ []) => none
    | other => other

end

/-- Call the module's function: locals zero-initialized, empty stack;
a fall-through reaches the emitted `i32.const 0; return` tail guard. -/
def runFunc (fuel : Nat) (f : IRFunc) : Option Int :=
  match runItems fuel (List.replicate f.localCount 0) [] f.items with
  | some (.retv v) => some v
  | some (.fall _ _) => some 0
  | _ => none

/-! ## Driver

`Modelled from the spec:` the final driver (`main.c` integrating the
semantic phase) is absent from the snapshot — the snapshot's
`src/main.c` predates the semantic analyzer, whose own Makefile and
IMPLEMENTATION_STATUS.md record it as "added to the main.c compilation
pipeline between parsing and IR generation".  Per spec §2/§7: phases
run in order lexer → parser → semantic analyzer → IR lowering → WASM
emitter; after parsing and after semantic analysis the driver checks
the sticky fatal flag (any non-warning diagnostic), and when it is set
it prints the errors, exits with code 1, and writes no output file. -/

structure DriverOut where
  exitCode : Nat
  output : Option (List Nat)
  errors : List CompErr

def pipelineFuel (src : List Char) : Nat := (src.length + 2) * 16

/-- The compilation pipeline on a source text. -/
def compile (src : List Char) : DriverOut :=
  let (toks, eofTok, lexErrs) := tokenize (src.length + 1) (lexInit src)
  let s0 : PSt := ⟨toks, eofTok, 0, lexErrs⟩
  let (ast, s1) := parseProgram (pipelineFuel src) s0
  if s1.errs ≠ [] then ⟨1, none, s1.errs⟩
  else
    match ast with
    | none => ⟨1, none, s1.errs⟩
    | some p =>
      let (_, semErrs) := semantic_analyze p
      if semErrs ≠ [] then ⟨1, none, semErrs⟩
      else
        let f := ir_generate p
        match codegen_emit_wasm ⟨[f]⟩ with
        | some bytes => ⟨0, some bytes, []⟩
        | none => ⟨1, none, []⟩

/-! ## Net stack effect of lowered code

The abstract-machine discipline of spec §4.6: the net number of `i32`
values an instruction sequence leaves on the evaluation stack,
following the WASM semantics of the bytes each element emits (an `If`
region additionally pops its condition).  `netOf` returns `none` when
the stream is unbalanced (branches of unequal effect, an else-less `if`
whose branch leaves a residue, or a loop whose body does). -/

def instrDelta : Instr → Int
  | .constI _ => 1
  | .loadL _ => 1
  | .storeL _ => -1
  | .negI => 0
  | .notI => 0
  | .bnotI => 0
  | .addI => -1
  | .subI => -1
  | .mulI => -1
  | .divI => -1
  | .modI => -1
  | .eqI => -1
  | .neI => -1
  | .ltI => -1
  | .gtI => -1
  | .leI => -1
  | .geI => -1
  | .landI => -1
  | .lorI => -1
  | .popI => -1
  | .retI => -1
  | .brkI => 0
  | .contI => 0

mutual

def netOf : List Item → Option Int
  | [] => some 0
  | .ins i :: rest =>
    match netOf rest with
    | some n => some (instrDelta i + n)
    | none => none
  | .reg r :: rest =>
    match netR r, netOf rest with
    | some d, some n => some (d + n)
    | _, _ => none

/-- Net effect of an optional else-stream; a missing else-region
behaves as an empty branch (effect 0). -/
def netElse : Option (List Item) → Option Int
  | some e => netOf e
  | none => some 0

def netR : Region → Option Int
  | .ifR _ cond thn els =>
    match netOf cond, netOf thn, netElse els with
    | some c, some t, some el => if c = 1 && t = el then some t else none
    | _, _, _ => none
  | .loopR cond body =>
    match netOf cond, netOf body with
    | some c, some b => if c = 1 && b = 0 then some 0 else none
    | _, _ => none

end

/-- Well-scopedness of an expression against the lowering scope stack:
every variable reference and assignment target resolves.  This is what
the gated pipeline guarantees when IR lowering runs (semantic analysis
reported no 3001 and the fatal flag is clear). -/
def wsExpr (sc : List (List (String × Nat))) : Expr → Bool
  | .intConst _ => true
  | .varRef n _ _ => (findVar sc n).isSome
  | .unary _ e => wsExpr sc e
  | .binary _ l r => wsExpr sc l && wsExpr sc r
  | .assign n _ _ v => (findVar sc n).isSome && wsExpr sc v
  | .ternary c t f => wsExpr sc c && wsExpr sc t && wsExpr sc f

mutual

/-- Well-scopedness of a statement, mirroring the scope evolution of
`lowerStmt` (declarations bind for the rest of their scope). -/
def wsStmt (st : IRSt) : Stmt → Bool
  | .ret e => wsExpr st.scopes e
  | .decl n l c init =>
    match init with
    | some i => wsExpr (lowerStmt st (.decl n l c none)).2.scopes i
    | none => true
  | .exprStmt e => wsExpr st.scopes e
  | .sif c thn els =>
    wsExpr st.scopes c && wsStmt st thn &&
      (match els with
        | some e => wsStmt (lowerStmt st thn).2 e
        | none => true)
  | .swhile c body => wsExpr st.scopes c && wsStmt st body
  | .sbreak _ _ => true
  | .scontinue _ _ => true
  | .block ss => wsStmtList ⟨[] :: st.scopes, st.localCount⟩ ss

def wsStmtList (st : IRSt) : List Stmt → Bool
  | [] => true
  | s :: rest => wsStmt st s && wsStmtList (lowerStmt st s).2 rest

end

/-- The parse tree of end-to-end scenario 5 of spec §8:
`int main() { int i = 0; int s = 0; while (i < 5) { s = s + i; i = i + 1; } return s; }`
(node locations are the tokens' positions in that one-line source). -/
def scenario5 : Program :=
  ⟨"main",
    [ .decl "i" 1 18 (some (.intConst 0)),
      .decl "s" 1 29 (some (.intConst 0)),
      .swhile (.binary .blt (.varRef "i" 1 41) (.intConst 5))
        (.block
          [ .exprStmt (.assign "s" 1 57 (.binary .add (.varRef "s" 1 54)
              (.varRef "i" 1 58))),
            .exprStmt (.assign "i" 1 68 (.binary .add (.varRef "i" 1 65)
              (.intConst 1))) ]),
      .ret (.varRef "s" 1 81) ]⟩

/-- Iterate the statement-list loop: `none` when the iteration budget
runs out, `some` with the final state when the loop's guard exits. -/
def stmtLoopRun : Nat → Nat → PSt → Option PSt
  | 0, _, _ => none
  | n + 1, fuel, s =>
    match stmtLoopStep fuel s with
    | none => some s
    | some (_, s') => stmtLoopRun n fuel s'

/-- Parser-state evolution invariant: the token stream and the EOF
token are fixed, and the cursor never moves backwards. -/
def pOk (s out : PSt) : Prop :=
  out.toks = s.toks ∧ out.eofTok = s.eofTok ∧ s.pos ≤ out.pos

/-- `pOk` plus strict cursor advance whenever the parse succeeded. -/
def pStrict {α : Type} (s : PSt) (out : Option α × PSt) : Prop :=
  pOk s out.2 ∧ (out.1.isSome → s.pos < out.2.pos)

/-- The binary-framing property of the emitted module (spec §8): the
output starts with the 8 header bytes, each section is its id byte
followed by the LEB128 payload length and exactly the payload bytes,
and each length field decodes to the payload's byte count. -/
def framingOk (m : IRModuleL) : Prop :=
  codegen_emit_wasm m =
    some ([0x00, 0x61, 0x73, 0x6D, 0x01, 0x00, 0x00, 0x00] ++
      ((1 :: ulebU32 typePayload.length ++ typePayload) ++
        ((3 :: ulebU32 funcPayload.length ++ funcPayload) ++
          ((7 :: ulebU32 exportPayload.length ++ exportPayload) ++
            (10 :: ulebU32 (codePayload m).length ++ codePayload m))))) ∧
  ulebVal (ulebU32 typePayload.length) = typePayload.length ∧
  ulebVal (ulebU32 funcPayload.length) = funcPayload.length ∧
  ulebVal (ulebU32 exportPayload.length) = exportPayload.length ∧
  ulebVal (ulebU32 (codePayload m).length) = (codePayload m).length

/-- The export-section property (spec §4.7): the output contains the
export section; its payload is the fixed byte list — export count 1,
name length 4, the bytes of `"main"`, kind 0x00, function index 0 —
independent of the module, hence of the declared function name. -/
def exportSectionOk (m : IRModuleL) : Prop :=
  (∃ pre post, codegen_emit_wasm m =
    some (pre ++ wsection 7 exportPayload ++ post)) ∧
  exportPayload = 0x01 :: (writeStr "main" ++ [0x00, 0x00]) ∧
  writeStr "main" = [0x04, 0x6D, 0x61, 0x69, 0x6E]

/-- A one-function demonstration module (for concrete witnesses). -/
def demoModule : IRModuleL :=
  ⟨[⟨"main", 0, [.ins (.constI 42), .ins .retI]⟩]⟩

/-- A concrete token stream (`return 1 ;` followed by a stray `}`
context), for exercising the statement-list loop on a real input. -/
def c9Toks : List Token :=
  [⟨.kwReturn, "return".toList, 1, 1, 0⟩,
   ⟨.intlit, ['1'], 1, 8, 7⟩,
   ⟨.semi, [';'], 1, 9, 8⟩]

/-- The EOF token following `c9Toks` (start = end of buffer). -/
def c9Eof : Token := ⟨.eof, [], 1, 10, 9⟩

/-- Parser state at the start of `c9Toks`. -/
def c9St : PSt := ⟨c9Toks, c9Eof, 0, []⟩

/-- Parser state whose current token is the integer literal `42`
(for exercising the literal-to-AST path on a concrete input). -/
def c10St : PSt :=
  ⟨[⟨.intlit, ['4', '2'], 1, 1, 0⟩], ⟨.eof, [], 1, 3, 2⟩, 0, []⟩

/-! ## Lemmas -/

theorem ulebVal_ulebAux : ∀ (fuel n : Nat), n < 128 ^ fuel →
    ulebVal (ulebAux fuel n) = n := by
  intro fuel
  induction fuel with
  | zero =>
    intro n h
    interval_cases n
    rfl
  | succ f ih =>
    intro n h
    rw [ulebAux]
    split
    · simp [ulebVal]
      omega
    · rename_i hn
      simp only [ulebVal]
      rw [ih (n / 128) (by rw [pow_succ] at h; omega)]
      omega

theorem ulebVal_ulebU32 (n : Nat) (h : n < 2 ^ 32) :
    ulebVal (ulebU32 n) = n := by
  have h8 : n < 128 ^ 8 := by norm_num at h ⊢; omega
  unfold ulebU32 uleb
  rw [Nat.mod_eq_of_lt h]
  exact ulebVal_ulebAux 8 n h8

/-! ## Claim C1 -/

/-- Claim C1, as stated, is false on the code: `src/ir.c` lowers
`1 && 2` to the three raw instructions `CONST 1; CONST 2;
IR_LOGICAL_AND` — no `If`-kind region holding the left operand exists
in the lowering.  Moreover the encoding is not short-circuit-equivalent:
for `2 && 1` the emitted `i32.and` computes `2 & 1 = 0`, while the
claimed ternary `left ? (right != 0) : 0` computes `1`. -/
theorem c1_short_circuit_counterexample :
    (¬ ∃ isE thn els,
      lowerExpr [] (.binary .land (.intConst 1) (.intConst 2)) =
        [.reg (.ifR isE (lowerExpr [] (.intConst 1)) thn els)]) ∧
    lowerExpr [] (.binary .land (.intConst 1) (.intConst 2)) =
      [.ins (.constI 1), .ins (.constI 2), .ins .landI] ∧
    runItems 10 [] [] (lowerExpr [] (.binary .land (.intConst 2) (.intConst 1))) =
      some (.fall [] [0]) ∧
    runItems 10 [] []
      [.reg (.ifR true [.ins (.constI 2)]
        [.ins (.constI 1), .ins (.constI 0), .ins .neI]
        (some [.ins (.constI 0)]))] = some (.fall [] [1]) :=
  ⟨by rintro ⟨isE, thn, els, h⟩; simp [lowerExpr] at h, rfl, rfl, rfl⟩

/-- Claim C1 (amended): for every binary `&&` or `||` expression, IR
lowering produces the non-short-circuit encoding — both operands are
lowered unconditionally, followed by `IR_LOGICAL_AND` /
`IR_LOGICAL_OR`, which the emitter writes as the bitwise `i32.and`
(0x71) / `i32.or` (0x72); no `If`-kind region is constructed and the
right operand is always evaluated. -/
theorem c1_logical_ops_lowered_bitwise :
    (∀ (sc : List (List (String × Nat))) (l r : Expr),
      lowerExpr sc (.binary .land l r) =
        lowerExpr sc l ++ lowerExpr sc r ++ [.ins .landI]) ∧
    (∀ (sc : List (List (String × Nat))) (l r : Expr),
      lowerExpr sc (.binary .lor l r) =
        lowerExpr sc l ++ lowerExpr sc r ++ [.ins .lorI]) ∧
    emitInstr .landI = [0x71] ∧ emitInstr .lorI = [0x72] :=
  ⟨fun _ _ _ => rfl, fun _ _ _ => rfl, rfl, rfl⟩

/-! ## Claim C2 -/

/-- Claim C2: `while (c) body` lowers to a `Loop` region holding the
condition and body streams; the emitter serializes a `Loop` region as
the structured frame `block 0x40; loop 0x40; cond; i32.eqz (0x45);
br_if 1 (0x0D 0x01); body; br 0 (0x0C 0x00); end; end`; and the
end-to-end scenario (`int main() { int i = 0; int s = 0;
while (i < 5) { s = s + i; i = i + 1; } return s; }`) compiles to a
function whose execution returns 10. -/
theorem c2_while_loop_frame_and_scenario :
    (∀ (st : IRSt) (c : Expr) (b : Stmt),
      lowerStmt st (.swhile c b) =
        ([.reg (.loopR (lowerExpr st.scopes c) (lowerStmt st b).1)],
          (lowerStmt st b).2)) ∧
    (∀ cond body, emitRegion (.loopR cond body) =
      [0x02, 0x40, 0x03, 0x40] ++ emitItems cond ++ [0x45, 0x0D, 0x01] ++
        emitItems body ++ [0x0C, 0x00, 0x0B, 0x0B]) ∧
    runFunc 1000 (ir_generate scenario5) = some 10 := by
  refine ⟨?_, fun cond body => rfl, rfl⟩
  intro st c b
  simp only [lowerStmt]

/-! ## Claims C5 and C6 -/

/-- Claim C5: every emitted module begins with the 8 bytes
`00 61 73 6D 01 00 00 00`, and each of the four sections is its id
byte, the LEB128 length of its payload, and then exactly that payload,
the length field decoding to the payload's byte count. -/
theorem c5_binary_framing (m : IRModuleL) (hm : m.functions ≠ [])
    (hc : (codePayload m).length < 2 ^ 32) : framingOk m := by
  have hlen : m.functions.length ≠ 0 := by
    simpa using fun h => hm (List.length_eq_zero.mp h)
  refine ⟨?_, ?_, ?_, ?_, ?_⟩
  · simp only [codegen_emit_wasm, hlen, if_false, wsection]
    rfl
  · exact ulebVal_ulebU32 _ (by decide)
  · exact ulebVal_ulebU32 _ (by decide)
  · exact ulebVal_ulebU32 _ (by decide)
  · exact ulebVal_ulebU32 _ hc

theorem c5_witness : framingOk demoModule :=
  c5_binary_framing demoModule (by simp [demoModule]) (by decide)

/-- Claim C6: the export section of every emitted module is the fixed
byte sequence — exactly one export, the 4-byte name `"main"` (the
function's declared name is never consulted), kind byte 0x00
(function), function index 0. -/
theorem c6_export_main (m : IRModuleL) (hm : m.functions ≠ []) :
    exportSectionOk m := by
  have hlen : m.functions.length ≠ 0 := by
    simpa using fun h => hm (List.length_eq_zero.mp h)
  refine ⟨⟨u32le 0x6d736100 ++ u32le 0x00000001 ++
    wsection 1 typePayload ++ wsection 3 funcPayload,
    wsection 10 (codePayload m), ?_⟩, rfl, rfl⟩
  simp only [codegen_emit_wasm, hlen, if_false]

theorem c6_witness : exportSectionOk demoModule :=
  c6_export_main demoModule (by simp [demoModule])

/-! ## Claim C7 -/

/-- Claim C7: an assignment `x = E` to a variable in scope lowers to
the code for `E` followed by `STORE_LOCAL` and `LOAD_LOCAL` on x's
slot (so the expression yields the assigned value); as a statement a
`POP` is appended, leaving no residue. -/
theorem c7_assignment_lowering (st : IRSt) (n : String) (l c k : Nat)
    (E : Expr) (h : findVar st.scopes n = some k) :
    lowerExpr st.scopes (.assign n l c E) =
      lowerExpr st.scopes E ++ [.ins (.storeL k), .ins (.loadL k)] ∧
    lowerStmt st (.exprStmt (.assign n l c E)) =
      (lowerExpr st.scopes E ++
        [.ins (.storeL k), .ins (.loadL k), .ins .popI], st) := by
  constructor
  · simp [lowerExpr, h]
  · simp [lowerStmt, lowerExpr, h]

theorem c7_witness :
    lowerExpr (IRSt.mk [[("x", 0)]] 1).scopes (.assign "x" 1 1 (.intConst 7)) =
      lowerExpr (IRSt.mk [[("x", 0)]] 1).scopes (.intConst 7) ++
        [.ins (.storeL 0), .ins (.loadL 0)] ∧
    lowerStmt (IRSt.mk [[("x", 0)]] 1) (.exprStmt (.assign "x" 1 1 (.intConst 7))) =
      (lowerExpr (IRSt.mk [[("x", 0)]] 1).scopes (.intConst 7) ++
        [.ins (.storeL 0), .ins (.loadL 0), .ins .popI], IRSt.mk [[("x", 0)]] 1) :=
  c7_assignment_lowering (IRSt.mk [[("x", 0)]] 1) "x" 1 1 0 (.intConst 7) rfl

/-! ## Claim C8 -/

/-- Claim C8: a `break` (`continue`) analyzed with the in-loop flag
clear yields error 3007 (3008) and no error with it set; a `while`
body is analyzed with the flag set (a `break` directly inside a
`while` is accepted even when the `while` itself is not in a loop);
and the flag is stacked: in the concrete program
`while(1) { while(1) {} break; } break;` the `break` after the inner
loop (still inside the outer loop) passes, while the `break` after the
outer loop is reported as 3007. -/
theorem c8_break_continue_loop_flag :
    (∀ (sc : List (List String)) (l c : Nat),
      analyzeStmt false sc (.sbreak l c) = (false, sc, [⟨3007, l, c⟩])) ∧
    (∀ (sc : List (List String)) (l c : Nat),
      analyzeStmt false sc (.scontinue l c) = (false, sc, [⟨3008, l, c⟩])) ∧
    (∀ (sc : List (List String)) (l c : Nat),
      analyzeStmt true sc (.sbreak l c) = (true, sc, []) ∧
      analyzeStmt true sc (.scontinue l c) = (true, sc, [])) ∧
    (∀ (sc : List (List String)) (cond : Expr) (l c : Nat),
      analyzeStmt false sc (.swhile cond (.sbreak l c)) =
        ((analyzeExpr sc cond).1, sc, (analyzeExpr sc cond).2)) ∧
    (analyzeStmtList false [[]]
      [ .swhile (.intConst 1)
          (.block [.swhile (.intConst 1) (.block []), .sbreak 2 3]),
        .sbreak 4 1 ]).2.2 = [⟨3007, 4, 1⟩] := by
  refine ⟨fun sc l c => rfl, fun sc l c => rfl,
    fun sc l c => ⟨rfl, rfl⟩, ?_, rfl⟩
  intro sc cond l c
  simp [analyzeStmt]

/-! ## Claim C4 -/

theorem netOf_append : ∀ (xs ys : List Item) (a b : Int),
    netOf xs = some a → netOf ys = some b → netOf (xs ++ ys) = some (a + b) := by
  intro xs
  induction xs with
  | nil =>
    intro ys a b ha hb
    simp only [netOf] at ha
    obtain rfl : (0 : Int) = a := by simpa using ha
    simpa using hb
  | cons hd tl ih =>
    intro ys a b ha hb
    cases hd with
    | ins i =>
      simp only [netOf] at ha
      cases h : netOf tl with
      | none => rw [h] at ha; simp at ha
      | some n =>
        rw [h] at ha
        obtain rfl : instrDelta i + n = a := by simpa using ha
        have := ih ys n b h hb
        simp only [List.cons_append, netOf, List.append_eq, this]
        congr 1
        ring
    | reg r =>
      simp only [netOf] at ha
      cases hr : netR r with
      | none => rw [hr] at ha; simp at ha
      | some d =>
        cases h : netOf tl with
        | none => rw [hr, h] at ha; simp at ha
        | some n =>
          rw [hr, h] at ha
          obtain rfl : d + n = a := by simpa using ha
          have := ih ys n b h hb
          simp only [List.cons_append, netOf, List.append_eq, this, hr]
          congr 1
          ring

/-- Every well-scoped expression lowers to a stream of net stack
effect exactly one `i32` (`ir_generate_expression`). -/
theorem netOf_lowerExpr : ∀ (e : Expr) (sc : List (List (String × Nat))),
    wsExpr sc e = true → netOf (lowerExpr sc e) = some 1 := by
  intro e
  induction e with
  | intConst v => intro sc h; rfl
  | varRef n l c =>
    intro sc h
    simp only [wsExpr, Option.isSome_iff_exists] at h
    obtain ⟨k, hk⟩ := h
    simp [lowerExpr, hk, netOf, instrDelta]
  | unary op e ih =>
    intro sc h
    simp only [wsExpr] at h
    have h1 := ih sc h
    have h2 : netOf [Item.ins (instrOfUnOp op)] = some 0 := by
      cases op <;> rfl
    simpa using netOf_append _ _ 1 0 h1 h2
  | binary op l r ihl ihr =>
    intro sc h
    simp only [wsExpr, Bool.and_eq_true] at h
    have h1 := ihl sc h.1
    have h2 := ihr sc h.2
    have h3 : netOf [Item.ins (instrOfBinOp op)] = some (-1) := by
      cases op <;> rfl
    have h12 := netOf_append _ _ 1 1 h1 h2
    have := netOf_append _ _ 2 (-1) h12 h3
    simpa [lowerExpr] using this
  | assign n l c v ihv =>
    intro sc h
    simp only [wsExpr, Bool.and_eq_true, Option.isSome_iff_exists] at h
    obtain ⟨⟨k, hk⟩, hv⟩ := h
    have h1 := ihv sc hv
    have h2 : netOf [Item.ins (.storeL k), Item.ins (.loadL k)] = some 0 := rfl
    have := netOf_append _ _ 1 0 h1 h2
    simpa [lowerExpr, hk] using this
  | ternary c t f ihc iht ihf =>
    intro sc h
    simp only [wsExpr, Bool.and_eq_true] at h
    obtain ⟨⟨hc, ht⟩, hf⟩ := h
    simp [lowerExpr, netOf, netR, netElse, ihc sc hc, iht sc ht, ihf sc hf]

mutual

/-- Every well-scoped statement lowers to a stream of net stack effect
zero (`ir_generate_statement`). -/
theorem netOf_lowerStmt : ∀ (s : Stmt) (st : IRSt), wsStmt st s = true →
    netOf (lowerStmt st s).1 = some 0
  | .ret e, st, h => by
    simp only [wsStmt] at h
    have h1 := netOf_lowerExpr e st.scopes h
    have h2 : netOf [Item.ins .retI] = some (-1) := rfl
    simpa [lowerStmt] using netOf_append _ _ 1 (-1) h1 h2
  | .decl n l c init, st, h => by
    cases init with
    | none => simp [lowerStmt, netOf]
    | some i =>
      simp only [wsStmt] at h
      have h1 := netOf_lowerExpr i _ h
      have h2 : netOf [Item.ins (.storeL st.localCount)] = some (-1) := rfl
      have := netOf_append _ _ 1 (-1) h1 h2
      simp only [lowerStmt] at this ⊢
      simpa using this
  | .exprStmt e, st, h => by
    simp only [wsStmt] at h
    cases e with
    | assign n l c v =>
      have h1 := netOf_lowerExpr _ st.scopes h
      have h2 : netOf [Item.ins .popI] = some (-1) := rfl
      simpa [lowerStmt] using netOf_append _ _ 1 (-1) h1 h2
    | binary op a b =>
      have h1 := netOf_lowerExpr _ st.scopes h
      have h2 : netOf [Item.ins .popI] = some (-1) := rfl
      simpa [lowerStmt] using netOf_append _ _ 1 (-1) h1 h2
    | intConst v => simp [lowerStmt, netOf]
    | varRef n l c => simp [lowerStmt, netOf]
    | unary op a => simp [lowerStmt, netOf]
    | ternary a b c => simp [lowerStmt, netOf]
  | .sif c thn els, st, h => by
    cases els with
    | none =>
      simp only [wsStmt, Bool.and_eq_true] at h
      obtain ⟨⟨hc, ht⟩, -⟩ := h
      have h1 := netOf_lowerExpr c st.scopes hc
      have h2 := netOf_lowerStmt thn st ht
      simp [lowerStmt, netOf, netR, netElse, h1, h2]
    | some e =>
      simp only [wsStmt, Bool.and_eq_true] at h
      obtain ⟨⟨hc, ht⟩, he⟩ := h
      have h1 := netOf_lowerExpr c st.scopes hc
      have h2 := netOf_lowerStmt thn st ht
      have h3 := netOf_lowerStmt e (lowerStmt st thn).2 he
      simp [lowerStmt, netOf, netR, netElse, h1, h2, h3]
  | .swhile c body, st, h => by
    simp only [wsStmt, Bool.and_eq_true] at h
    have h1 := netOf_lowerExpr c st.scopes h.1
    have h2 := netOf_lowerStmt body st h.2
    simp [lowerStmt, netOf, netR, h1, h2]
  | .sbreak l c, st, h => by simp [lowerStmt, netOf, instrDelta]
  | .scontinue l c, st, h => by simp [lowerStmt, netOf, instrDelta]
  | .block ss, st, h => by
    simp only [wsStmt] at h
    have := netOf_lowerStmtList ss ⟨[] :: st.scopes, st.localCount⟩ h
    simp only [lowerStmt]
    simpa using this

theorem netOf_lowerStmtList : ∀ (ss : List Stmt) (st : IRSt),
    wsStmtList st ss = true → netOf (lowerStmtList st ss).1 = some 0
  | [], st, h => rfl
  | s :: rest, st, h => by
    simp only [wsStmtList, Bool.and_eq_true] at h
    have h1 := netOf_lowerStmt s st h.1
    have h2 := netOf_lowerStmtList rest (lowerStmt st s).2 h.2
    simp only [lowerStmtList]
    simpa using netOf_append _ _ 0 0 h1 h2

end

/-- Claim C4: for every AST expression node whose variable references
resolve in the lowering scope, the IR stream produced for it has a net
stack effect of exactly one `i32`; for every statement node, zero. -/
theorem c4_stack_discipline :
    (∀ (e : Expr) (sc : List (List (String × Nat))),
      wsExpr sc e = true → netOf (lowerExpr sc e) = some 1) ∧
    (∀ (s : Stmt) (st : IRSt),
      wsStmt st s = true → netOf (lowerStmt st s).1 = some 0) :=
  ⟨netOf_lowerExpr, netOf_lowerStmt⟩

/-! ## Claim C9: parser-state lemmas -/

theorem pOk_refl (s : PSt) : pOk s s := ⟨rfl, rfl, le_refl _⟩

theorem pOk_trans {s t u : PSt} (h1 : pOk s t) (h2 : pOk t u) : pOk s u :=
  ⟨h2.1.trans h1.1, h2.2.1.trans h1.2.1, h1.2.2.trans h2.2.2⟩

theorem pOk_adv (s : PSt) : pOk s s.adv := ⟨rfl, rfl, Nat.le_succ _⟩

theorem pOk_report (s : PSt) (id : Nat) : pOk s (s.report id) :=
  ⟨rfl, rfl, le_refl _⟩

theorem report_pos (s : PSt) (id : Nat) : (s.report id).pos = s.pos := rfl

theorem pOk_syncF : ∀ (fuel : Nat) (s : PSt), pOk s (syncF fuel s) := by
  intro fuel
  induction fuel with
  | zero => intro s; exact pOk_refl s
  | succ f ih =>
    intro s
    rw [syncF]
    split
    · exact pOk_refl s
    · split
      · exact pOk_refl s
      · exact pOk_trans (pOk_adv s) (ih s.adv)

theorem pOk_sync (s : PSt) : pOk s s.sync := pOk_syncF _ _

theorem matchTok_true {s : PSt} {ty : TokTy} {s1 : PSt}
    (h : s.matchTok ty = (true, s1)) : s1 = s.adv := by
  unfold PSt.matchTok at h
  split at h
  · exact (Prod.mk.injEq _ _ _ _ ▸ h).2.symm
  · simp at h

theorem matchTok_false {s : PSt} {ty : TokTy} {s1 : PSt}
    (h : s.matchTok ty = (false, s1)) : s1 = s := by
  unfold PSt.matchTok at h
  split at h
  · simp at h
  · exact (Prod.mk.injEq _ _ _ _ ▸ h).2.symm

theorem pStrict_none {α : Type} {s s1 : PSt} (h : pOk s s1) :
    pStrict s ((none : Option α), s1) := ⟨h, by simp⟩

theorem pStrict_of_lt {α : Type} {s s1 : PSt} (r : Option α) (h : pOk s s1)
    (hlt : s.pos < s1.pos) : pStrict s (r, s1) := ⟨h, fun _ => hlt⟩

theorem pOk_pos_lt {s t u : PSt} (h2 : pOk t u)
    (hlt : s.pos < t.pos) : s.pos < u.pos := lt_of_lt_of_le hlt h2.2.2

/-- Every parser function only moves the cursor forward over the fixed
token stream, and a successful parse consumes at least one token.
Proven for every fuel simultaneously for the whole recursive-descent
family of `arena.c`. -/
theorem parserProgress : ∀ fuel : Nat,
    (∀ s, pStrict s (parsePrimary fuel s)) ∧
    (∀ s, pStrict s (parseUnary fuel s)) ∧
    (∀ left s, pOk s (parseMulLoop fuel left s).2) ∧
    (∀ s, pStrict s (parseMul fuel s)) ∧
    (∀ left s, pOk s (parseAddLoop fuel left s).2) ∧
    (∀ s, pStrict s (parseAdd fuel s)) ∧
    (∀ left s, pOk s (parseRelLoop fuel left s).2) ∧
    (∀ s, pStrict s (parseRel fuel s)) ∧
    (∀ left s, pOk s (parseEqLoop fuel left s).2) ∧
    (∀ s, pStrict s (parseEquality fuel s)) ∧
    (∀ left s, pOk s (parseAndLoop fuel left s).2) ∧
    (∀ s, pStrict s (parseLogicalAnd fuel s)) ∧
    (∀ left s, pOk s (parseOrLoop fuel left s).2) ∧
    (∀ s, pStrict s (parseLogicalOr fuel s)) ∧
    (∀ s, pStrict s (parseTernaryE fuel s)) ∧
    (∀ s, pStrict s (parseAssignE fuel s)) ∧
    (∀ s, pStrict s (parseExpr fuel s)) ∧
    (∀ s, pStrict s (parseDecl fuel s)) ∧
    (∀ s, pStrict s (parseIf fuel s)) ∧
    (∀ s, pStrict s (parseWhile fuel s)) ∧
    (∀ acc s, pOk s (parseCmpItems fuel acc s).2) ∧
    (∀ s, pStrict s (parseCompound fuel s)) ∧
    (∀ acc s, pOk s (parseFnItems fuel acc s).2) ∧
    (∀ s, pStrict s (parseStmt fuel s)) := by
  intro fuel
  induction fuel with
  | zero =>
    exact ⟨fun s => pStrict_none (pOk_refl s), fun s => pStrict_none (pOk_refl s),
      fun left s => pOk_refl s, fun s => pStrict_none (pOk_refl s),
      fun left s => pOk_refl s, fun s => pStrict_none (pOk_refl s),
      fun left s => pOk_refl s, fun s => pStrict_none (pOk_refl s),
      fun left s => pOk_refl s, fun s => pStrict_none (pOk_refl s),
      fun left s => pOk_refl s, fun s => pStrict_none (pOk_refl s),
      fun left s => pOk_refl s, fun s => pStrict_none (pOk_refl s),
      fun s => pStrict_none (pOk_refl s), fun s => pStrict_none (pOk_refl s),
      fun s => pStrict_none (pOk_refl s), fun s => pStrict_none (pOk_refl s),
      fun s => pStrict_none (pOk_refl s), fun s => pStrict_none (pOk_refl s),
      fun acc s => pOk_refl s, fun s => pStrict_none (pOk_refl s),
      fun acc s => pOk_refl s, fun s => pStrict_none (pOk_refl s)⟩
  | succ f ih =>
    obtain ⟨ihPrim, ihUn, ihMulL, ihMul, ihAddL, ihAdd, ihRelL, ihRel,
      ihEqL, ihEq, ihAndL, ihAnd, ihOrL, ihOr, ihTer, ihAsn, ihExpr,
      ihDecl, ihIf, ihWhile, ihCmpI, ihCmp, ihFnI, ihStmt⟩ := ih
    have primPf : ∀ s, pStrict s (parsePrimary (f + 1) s) := by
      intro s
      simp only [parsePrimary]
      split
      · split
        · exact pStrict_none (pOk_trans (pOk_adv s)
            (pOk_trans (pOk_report _ _) (pOk_adv _)))
        · exact pStrict_of_lt _ (pOk_adv s) (Nat.lt_succ_self _)
      · split
        · exact pStrict_of_lt _ (pOk_adv s) (Nat.lt_succ_self _)
        · rcases hm : s.matchTok .lparen with ⟨b, s1⟩
          cases b
          · obtain rfl := matchTok_false hm
            exact pStrict_none (pOk_trans (pOk_report _ _) (pOk_sync _))
          · obtain rfl := matchTok_true hm
            dsimp only
            rcases he : parseExpr f s.adv with ⟨r2, s2⟩
            have He := ihExpr s.adv
            rw [he] at He
            cases r2
            · exact pStrict_none (pOk_trans (pOk_adv s) He.1)
            · dsimp only
              rcases hm2 : s2.matchTok .rparen with ⟨b2, s3⟩
              cases b2
              · obtain rfl := matchTok_false hm2
                exact pStrict_none (pOk_trans (pOk_adv s)
                  (pOk_trans He.1 (pOk_report _ _)))
              · obtain rfl := matchTok_true hm2
                refine pStrict_of_lt _
                  (pOk_trans (pOk_adv s) (pOk_trans He.1 (pOk_adv _))) ?_
                exact pOk_pos_lt (pOk_trans He.1 (pOk_adv _)) (Nat.lt_succ_self _)
    have unPf : ∀ s, pStrict s (parseUnary (f + 1) s) := by
      intro s
      simp only [parseUnary]
      have mk : ∀ op : UnOp, pStrict s
          (match parseUnary f s.adv with
            | (none, s2) => ((none : Option Expr), s2)
            | (some operand, s2) => (some (.unary op operand), s2)) := by
        intro op
        rcases hu : parseUnary f s.adv with ⟨r, s2⟩
        have Hu := ihUn s.adv
        rw [hu] at Hu
        cases r
        · exact pStrict_none (pOk_trans (pOk_adv s) Hu.1)
        · exact pStrict_of_lt _ (pOk_trans (pOk_adv s) Hu.1)
            (pOk_pos_lt Hu.1 (Nat.lt_succ_self _))
      split
      · exact mk _
      · exact mk _
      · exact mk _
      · exact ihPrim s
    have mulLoopPf : ∀ left s, pOk s (parseMulLoop (f + 1) left s).2 := by
      intro left s
      simp only [parseMulLoop]
      split
      · rcases hu : parseUnary f s.adv with ⟨r, s2⟩
        have Hu := ihUn s.adv
        rw [hu] at Hu
        cases r
        · exact pOk_trans (pOk_adv s) Hu.1
        · exact pOk_trans (pOk_adv s) (pOk_trans Hu.1 (ihMulL _ s2))
      · exact pOk_refl s
    have mulPf : ∀ s, pStrict s (parseMul (f + 1) s) := by
      intro s
      simp only [parseMul]
      rcases hu : parseUnary f s with ⟨r, s1⟩
      have Hu := ihUn s
      rw [hu] at Hu
      cases r
      · exact pStrict_none Hu.1
      · exact ⟨pOk_trans Hu.1 (ihMulL _ s1),
          fun _ => pOk_pos_lt (ihMulL _ s1) (Hu.2 (by simp))⟩
    have addLoopPf : ∀ left s, pOk s (parseAddLoop (f + 1) left s).2 := by
      intro left s
      simp only [parseAddLoop]
      split
      · rcases hu : parseMul f s.adv with ⟨r, s2⟩
        have Hu := ihMul s.adv
        rw [hu] at Hu
        cases r
        · exact pOk_trans (pOk_adv s) Hu.1
        · exact pOk_trans (pOk_adv s) (pOk_trans Hu.1 (ihAddL _ s2))
      · exact pOk_refl s
    have addPf : ∀ s, pStrict s (parseAdd (f + 1) s) := by
      intro s
      simp only [parseAdd]
      rcases hu : parseMul f s with ⟨r, s1⟩
      have Hu := ihMul s
      rw [hu] at Hu
      cases r
      · exact pStrict_none Hu.1
      · exact ⟨pOk_trans Hu.1 (ihAddL _ s1),
          fun _ => pOk_pos_lt (ihAddL _ s1) (Hu.2 (by simp))⟩
    have relLoopPf : ∀ left s, pOk s (parseRelLoop (f + 1) left s).2 := by
      intro left s
      simp only [parseRelLoop]
      split
      · rcases hu : parseAdd f s.adv with ⟨r, s2⟩
        have Hu := ihAdd s.adv
        rw [hu] at Hu
        cases r
        · exact pOk_trans (pOk_adv s) Hu.1
        · exact pOk_trans (pOk_adv s) (pOk_trans Hu.1 (ihRelL _ s2))
      · exact pOk_refl s
    have relPf : ∀ s, pStrict s (parseRel (f + 1) s) := by
      intro s
      simp only [parseRel]
      rcases hu : parseAdd f s with ⟨r, s1⟩
      have Hu := ihAdd s
      rw [hu] at Hu
      cases r
      · exact pStrict_none Hu.1
      · exact ⟨pOk_trans Hu.1 (ihRelL _ s1),
          fun _ => pOk_pos_lt (ihRelL _ s1) (Hu.2 (by simp))⟩
    have eqLoopPf : ∀ left s, pOk s (parseEqLoop (f + 1) left s).2 := by
      intro left s
      simp only [parseEqLoop]
      split
      · rcases hu : parseRel f s.adv with ⟨r, s2⟩
        have Hu := ihRel s.adv
        rw [hu] at Hu
        cases r
        · exact pOk_trans (pOk_adv s) Hu.1
        · exact pOk_trans (pOk_adv s) (pOk_trans Hu.1 (ihEqL _ s2))
      · exact pOk_refl s
    have eqPf : ∀ s, pStrict s (parseEquality (f + 1) s) := by
      intro s
      simp only [parseEquality]
      rcases hu : parseRel f s with ⟨r, s1⟩
      have Hu := ihRel s
      rw [hu] at Hu
      cases r
      · exact pStrict_none Hu.1
      · exact ⟨pOk_trans Hu.1 (ihEqL _ s1),
          fun _ => pOk_pos_lt (ihEqL _ s1) (Hu.2 (by simp))⟩
    have andLoopPf : ∀ left s, pOk s (parseAndLoop (f + 1) left s).2 := by
      intro left s
      simp only [parseAndLoop]
      split
      · rcases hu : parseEquality f s.adv with ⟨r, s2⟩
        have Hu := ihEq s.adv
        rw [hu] at Hu
        cases r
        · exact pOk_trans (pOk_adv s) Hu.1
        · exact pOk_trans (pOk_adv s) (pOk_trans Hu.1 (ihAndL _ s2))
      · exact pOk_refl s
    have andPf : ∀ s, pStrict s (parseLogicalAnd (f + 1) s) := by
      intro s
      simp only [parseLogicalAnd]
      rcases hu : parseEquality f s with ⟨r, s1⟩
      have Hu := ihEq s
      rw [hu] at Hu
      cases r
      · exact pStrict_none Hu.1
      · exact ⟨pOk_trans Hu.1 (ihAndL _ s1),
          fun _ => pOk_pos_lt (ihAndL _ s1) (Hu.2 (by simp))⟩
    have orLoopPf : ∀ left s, pOk s (parseOrLoop (f + 1) left s).2 := by
      intro left s
      simp only [parseOrLoop]
      split
      · rcases hu : parseLogicalAnd f s.adv with ⟨r, s2⟩
        have Hu := ihAnd s.adv
        rw [hu] at Hu
        cases r
        · exact pOk_trans (pOk_adv s) Hu.1
        · exact pOk_trans (pOk_adv s) (pOk_trans Hu.1 (ihOrL _ s2))
      · exact pOk_refl s
    have orPf : ∀ s, pStrict s (parseLogicalOr (f + 1) s) := by
      intro s
      simp only [parseLogicalOr]
      rcases hu : parseLogicalAnd f s with ⟨r, s1⟩
      have Hu := ihAnd s
      rw [hu] at Hu
      cases r
      · exact pStrict_none Hu.1
      · exact ⟨pOk_trans Hu.1 (ihOrL _ s1),
          fun _ => pOk_pos_lt (ihOrL _ s1) (Hu.2 (by simp))⟩
    have terPf : ∀ s, pStrict s (parseTernaryE (f + 1) s) := by
      intro s
      simp only [parseTernaryE]
      rcases ho : parseLogicalOr f s with ⟨r, s1⟩
      have Ho := ihOr s
      rw [ho] at Ho
      cases r
      · exact pStrict_none Ho.1
      · dsimp only
        rcases hm : s1.matchTok .question with ⟨b, s2⟩
        cases b
        · obtain rfl := matchTok_false hm
          exact ⟨Ho.1, fun _ => Ho.2 (by simp)⟩
        · obtain rfl := matchTok_true hm
          dsimp only
          have h1 : pOk s s1.adv := pOk_trans Ho.1 (pOk_adv s1)
          have hlt1 : s.pos < s1.adv.pos :=
            lt_of_le_of_lt Ho.1.2.2 (Nat.lt_succ_self _)
          rcases he : parseExpr f s1.adv with ⟨r2, s3⟩
          have He := ihExpr s1.adv
          rw [he] at He
          cases r2
          · exact pStrict_none (pOk_trans h1 He.1)
          · dsimp only
            rcases hm2 : s3.matchTok .colon with ⟨b2, s4⟩
            cases b2
            · obtain rfl := matchTok_false hm2
              exact pStrict_none (pOk_trans h1 (pOk_trans He.1 (pOk_report _ _)))
            · obtain rfl := matchTok_true hm2
              dsimp only
              rcases htr : parseTernaryE f s3.adv with ⟨r3, s5⟩
              have Ht := ihTer s3.adv
              rw [htr] at Ht
              cases r3
              · exact pStrict_none
                  (pOk_trans h1 (pOk_trans He.1 (pOk_trans (pOk_adv s3) Ht.1)))
              · exact pStrict_of_lt _
                  (pOk_trans h1 (pOk_trans He.1 (pOk_trans (pOk_adv s3) Ht.1)))
                  (pOk_pos_lt (pOk_trans He.1 (pOk_trans (pOk_adv s3) Ht.1)) hlt1)
    have asnPf : ∀ s, pStrict s (parseAssignE (f + 1) s) := by
      intro s
      simp only [parseAssignE]
      rcases ht : parseTernaryE f s with ⟨left, s1⟩
      have Ht := ihTer s
      rw [ht] at Ht
      dsimp only
      rcases hm : s1.matchTok .assignEq with ⟨b, s2⟩
      cases b
      · obtain rfl := matchTok_false hm
        exact ⟨Ht.1, fun hs => Ht.2 hs⟩
      · obtain rfl := matchTok_true hm
        dsimp only
        rcases ha : parseAssignE f s1.adv with ⟨r2, s3⟩
        have Ha := ihAsn s1.adv
        rw [ha] at Ha
        have hok : pOk s s3 := pOk_trans Ht.1 (pOk_trans (pOk_adv s1) Ha.1)
        have hlt : s.pos < s3.pos :=
          pOk_pos_lt Ha.1 (lt_of_le_of_lt Ht.1.2.2 (Nat.lt_succ_self _))
        cases r2
        · exact pStrict_none hok
        · cases left with
          | none => exact pStrict_none hok
          | some l =>
            cases l with
            | varRef n ll cc => exact pStrict_of_lt _ hok hlt
            | intConst v => exact pStrict_none (pOk_trans hok (pOk_report _ _))
            | unary op e => exact pStrict_none (pOk_trans hok (pOk_report _ _))
            | binary op a b => exact pStrict_none (pOk_trans hok (pOk_report _ _))
            | assign n ll cc v =>
              exact pStrict_none (pOk_trans hok (pOk_report _ _))
            | ternary a b c => exact pStrict_none (pOk_trans hok (pOk_report _ _))
    have exprPf : ∀ s, pStrict s (parseExpr (f + 1) s) := by
      intro s
      simp only [parseExpr]
      exact ihAsn s
    have declPf : ∀ s, pStrict s (parseDecl (f + 1) s) := by
      intro s
      simp only [parseDecl]
      rcases hm : s.matchTok .kwInt with ⟨b, s1⟩
      cases b
      · obtain rfl := matchTok_false hm
        exact pStrict_none (pOk_report _ _)
      · obtain rfl := matchTok_true hm
        dsimp only
        split
        · have h2 : pOk s s.adv.adv := pOk_trans (pOk_adv s) (pOk_adv _)
          have hlt2 : s.pos < s.adv.adv.pos := by
            have : s.adv.adv.pos = s.pos + 2 := rfl
            omega
          rcases hm2 : s.adv.adv.matchTok .assignEq with ⟨b2, s3⟩
          cases b2
          · obtain rfl := matchTok_false hm2
            dsimp only
            rcases hm3 : s.adv.adv.matchTok .semi with ⟨b3, s4⟩
            cases b3
            · obtain rfl := matchTok_false hm3
              exact pStrict_none (pOk_trans h2 (pOk_report _ _))
            · obtain rfl := matchTok_true hm3
              exact pStrict_of_lt _ (pOk_trans h2 (pOk_adv _))
                (pOk_pos_lt (pOk_adv _) hlt2)
          · obtain rfl := matchTok_true hm2
            dsimp only
            rcases he : parseExpr f s.adv.adv.adv with ⟨r, s4⟩
            have He := ihExpr s.adv.adv.adv
            rw [he] at He
            have h3 : pOk s s4 := pOk_trans h2 (pOk_trans (pOk_adv _) He.1)
            cases r
            · exact pStrict_none h3
            · dsimp only
              rcases hm3 : s4.matchTok .semi with ⟨b3, s5⟩
              cases b3
              · obtain rfl := matchTok_false hm3
                exact pStrict_none (pOk_trans h3 (pOk_report _ _))
              · obtain rfl := matchTok_true hm3
                exact pStrict_of_lt _ (pOk_trans h3 (pOk_adv _))
                  (pOk_pos_lt (pOk_trans (pOk_trans (pOk_adv _) He.1) (pOk_adv _)) hlt2)
        · exact pStrict_none (pOk_trans (pOk_adv s) (pOk_report _ _))
    have ifPf : ∀ s, pStrict s (parseIf (f + 1) s) := by
      intro s
      simp only [parseIf]
      rcases hm : s.matchTok .kwIf with ⟨b, s1⟩
      cases b
      · obtain rfl := matchTok_false hm
        exact pStrict_none (pOk_report _ _)
      · obtain rfl := matchTok_true hm
        have h1 : pOk s s.adv := pOk_adv s
        have hlt1 : s.pos < s.adv.pos := Nat.lt_succ_self _
        dsimp only
        rcases hm2 : s.adv.matchTok .lparen with ⟨b2, s2⟩
        cases b2
        · obtain rfl := matchTok_false hm2
          exact pStrict_none (pOk_trans h1 (pOk_report _ _))
        · obtain rfl := matchTok_true hm2
          dsimp only
          rcases he : parseExpr f s.adv.adv with ⟨rc, s3⟩
          have He := ihExpr s.adv.adv
          rw [he] at He
          have h2 : pOk s s3 := pOk_trans h1 (pOk_trans (pOk_adv _) He.1)
          cases rc
          · exact pStrict_none h2
          · dsimp only
            rcases hm3 : s3.matchTok .rparen with ⟨b3, s4⟩
            cases b3
            · obtain rfl := matchTok_false hm3
              exact pStrict_none (pOk_trans h2 (pOk_report _ _))
            · obtain rfl := matchTok_true hm3
              dsimp only
              rcases hs : parseStmt f s3.adv with ⟨rt, s5⟩
              have Hs := ihStmt s3.adv
              rw [hs] at Hs
              have h3 : pOk s s5 := pOk_trans h2 (pOk_trans (pOk_adv _) Hs.1)
              have hlt3 : s.pos < s5.pos :=
                pOk_pos_lt (pOk_trans (pOk_trans (pOk_adv _) He.1)
                  (pOk_trans (pOk_adv _) Hs.1)) hlt1
              cases rt
              · exact pStrict_none h3
              · dsimp only
                rcases hm4 : s5.matchTok .kwElse with ⟨b4, s6⟩
                cases b4
                · obtain rfl := matchTok_false hm4
                  exact pStrict_of_lt _ h3 hlt3
                · obtain rfl := matchTok_true hm4
                  dsimp only
                  rcases hs2 : parseStmt f s5.adv with ⟨re, s7⟩
                  have Hs2 := ihStmt s5.adv
                  rw [hs2] at Hs2
                  have h4 : pOk s s7 := pOk_trans h3 (pOk_trans (pOk_adv _) Hs2.1)
                  cases re
                  · exact pStrict_none h4
                  · exact pStrict_of_lt _ h4
                      (pOk_pos_lt (pOk_trans (pOk_adv _) Hs2.1) hlt3)
    have whilePf : ∀ s, pStrict s (parseWhile (f + 1) s) := by
      intro s
      simp only [parseWhile]
      rcases hm : s.matchTok .kwWhile with ⟨b, s1⟩
      cases b
      · obtain rfl := matchTok_false hm
        exact pStrict_none (pOk_report _ _)
      · obtain rfl := matchTok_true hm
        have h1 : pOk s s.adv := pOk_adv s
        have hlt1 : s.pos < s.adv.pos := Nat.lt_succ_self _
        dsimp only
        rcases hm2 : s.adv.matchTok .lparen with ⟨b2, s2⟩
        cases b2
        · obtain rfl := matchTok_false hm2
          exact pStrict_none (pOk_trans h1 (pOk_report _ _))
        · obtain rfl := matchTok_true hm2
          dsimp only
          rcases he : parseExpr f s.adv.adv with ⟨rc, s3⟩
          have He := ihExpr s.adv.adv
          rw [he] at He
          have h2 : pOk s s3 := pOk_trans h1 (pOk_trans (pOk_adv _) He.1)
          cases rc
          · exact pStrict_none h2
          · dsimp only
            rcases hm3 : s3.matchTok .rparen with ⟨b3, s4⟩
            cases b3
            · obtain rfl := matchTok_false hm3
              exact pStrict_none (pOk_trans h2 (pOk_report _ _))
            · obtain rfl := matchTok_true hm3
              dsimp only
              rcases hs : parseStmt f s3.adv with ⟨rt, s5⟩
              have Hs := ihStmt s3.adv
              rw [hs] at Hs
              have h3 : pOk s s5 := pOk_trans h2 (pOk_trans (pOk_adv _) Hs.1)
              cases rt
              · exact pStrict_none h3
              · exact pStrict_of_lt _ h3
                  (pOk_pos_lt (pOk_trans (pOk_trans (pOk_adv _) He.1)
                    (pOk_trans (pOk_adv _) Hs.1)) hlt1)
    have cmpItemsPf : ∀ acc s, pOk s (parseCmpItems (f + 1) acc s).2 := by
      intro acc s
      simp only [parseCmpItems]
      split
      · exact pOk_refl s
      · rcases hs : parseStmt f s with ⟨r, s1⟩
        have Hs := ihStmt s
        rw [hs] at Hs
        cases r
        · dsimp only
          have hsync : pOk s s1.sync := pOk_trans Hs.1 (pOk_sync s1)
          by_cases hoff : s1.sync.cur.off = s.cur.off
          · rw [if_pos hoff]
            exact pOk_trans (pOk_trans hsync (pOk_adv _)) (ihCmpI acc _)
          · rw [if_neg hoff]
            exact pOk_trans hsync (ihCmpI acc _)
        · dsimp only
          split
          · exact pOk_trans Hs.1 (pOk_report _ _)
          · exact pOk_trans Hs.1 (ihCmpI _ s1)
    have cmpPf : ∀ s, pStrict s (parseCompound (f + 1) s) := by
      intro s
      simp only [parseCompound]
      rcases hm : s.matchTok .lbrace with ⟨b, s1⟩
      cases b
      · obtain rfl := matchTok_false hm
        exact pStrict_none (pOk_report _ _)
      · obtain rfl := matchTok_true hm
        have h1 : pOk s s.adv := pOk_adv s
        have hlt1 : s.pos < s.adv.pos := Nat.lt_succ_self _
        dsimp only
        rcases hi : parseCmpItems f [] s.adv with ⟨ri, s2⟩
        have Hi : pOk s.adv s2 := by
          have := ihCmpI [] s.adv
          rw [hi] at this
          exact this
        have h2 : pOk s s2 := pOk_trans h1 Hi
        cases ri
        · exact pStrict_none h2
        · dsimp only
          rcases hm2 : s2.matchTok .rbrace with ⟨b2, s3⟩
          cases b2
          · obtain rfl := matchTok_false hm2
            exact pStrict_none (pOk_trans h2 (pOk_report _ _))
          · obtain rfl := matchTok_true hm2
            exact pStrict_of_lt _ (pOk_trans h2 (pOk_adv _))
              (pOk_pos_lt (pOk_trans Hi (pOk_adv _)) hlt1)
    have fnItemsPf : ∀ acc s, pOk s (parseFnItems (f + 1) acc s).2 := by
      intro acc s
      simp only [parseFnItems]
      split
      · exact pOk_refl s
      · rcases hs : parseStmt f s with ⟨r, s1⟩
        have Hs := ihStmt s
        rw [hs] at Hs
        cases r
        · dsimp only
          have hsync : pOk s s1.sync := pOk_trans Hs.1 (pOk_sync s1)
          by_cases hoff : s1.sync.cur.off = s.cur.off
          · rw [if_pos hoff]
            exact pOk_trans (pOk_trans hsync (pOk_adv _)) (ihFnI acc _)
          · rw [if_neg hoff]
            exact pOk_trans hsync (ihFnI acc _)
        · exact pOk_trans Hs.1 (ihFnI _ s1)
    have stmtPf : ∀ s, pStrict s (parseStmt (f + 1) s) := by
      intro s
      simp only [parseStmt]
      split
      · exact ihDecl s
      · split
        · exact ihIf s
        · split
          · exact ihWhile s
          · split
            · exact ihCmp s
            · rcases hm : s.matchTok .kwReturn with ⟨b, s1⟩
              cases b
              · obtain rfl := matchTok_false hm
                dsimp only
                split
                · exact pStrict_none (pOk_trans (pOk_report _ _) (pOk_sync _))
                · rcases he : parseExpr f s1 with ⟨r, s2⟩
                  have He := ihExpr s1
                  rw [he] at He
                  cases r
                  · exact pStrict_none He.1
                  · dsimp only
                    rcases hm2 : s2.matchTok .semi with ⟨b2, s3⟩
                    cases b2
                    · obtain rfl := matchTok_false hm2
                      exact pStrict_none (pOk_trans He.1 (pOk_report _ _))
                    · obtain rfl := matchTok_true hm2
                      exact pStrict_of_lt _ (pOk_trans He.1 (pOk_adv s2))
                        (pOk_pos_lt (pOk_adv s2) (He.2 (by simp)))
              · obtain rfl := matchTok_true hm
                dsimp only
                have h1 : pOk s s.adv := pOk_adv s
                have hlt1 : s.pos < s.adv.pos := Nat.lt_succ_self _
                rcases he : parseExpr f s.adv with ⟨r, s2⟩
                have He := ihExpr s.adv
                rw [he] at He
                cases r
                · exact pStrict_none (pOk_trans h1 He.1)
                · dsimp only
                  rcases hm2 : s2.matchTok .semi with ⟨b2, s3⟩
                  cases b2
                  · obtain rfl := matchTok_false hm2
                    exact pStrict_none (pOk_trans h1
                      (pOk_trans He.1 (pOk_trans (pOk_report _ _) (pOk_sync _))))
                  · obtain rfl := matchTok_true hm2
                    exact pStrict_of_lt _
                      (pOk_trans h1 (pOk_trans He.1 (pOk_adv _)))
                      (pOk_pos_lt (pOk_trans He.1 (pOk_adv _)) hlt1)
    exact ⟨primPf, unPf, mulLoopPf, mulPf, addLoopPf, addPf, relLoopPf, relPf,
      eqLoopPf, eqPf, andLoopPf, andPf, orLoopPf, orPf, terPf, asnPf, exprPf,
      declPf, ifPf, whilePf, cmpItemsPf, cmpPf, fnItemsPf, stmtPf⟩

theorem c4_witness :
    netOf (lowerExpr [[("x", 0)]]
      (.ternary (.varRef "x" 1 1) (.intConst 1) (.intConst 2))) = some 1 ∧
    netOf (lowerStmt ⟨[[]], 0⟩
      (.swhile (.intConst 1) (.block [.decl "y" 1 1 (some (.intConst 3)),
        .sbreak 1 5]))).1 = some 0 :=
  ⟨c4_stack_discipline.1 _ [[("x", 0)]] (by rfl),
    c4_stack_discipline.2 _ ⟨[[]], 0⟩ (by rfl)⟩

theorem cur_past_end (s : PSt) (h : s.toks.length ≤ s.pos) : s.cur = s.eofTok := by
  unfold PSt.cur
  exact List.getD_eq_default _ _ h

theorem stmtLoopStep_eof (fuel : Nat) (s : PSt) (h : s.cur.ty = .eof) :
    stmtLoopStep fuel s = none := by
  simp [stmtLoopStep, h]

theorem stmtLoopStep_progress (fuel : Nat) (s : PSt) (r : Option Stmt) (s' : PSt)
    (h : stmtLoopStep fuel s = some (r, s')) :
    s'.toks = s.toks ∧ s'.eofTok = s.eofTok ∧ s.pos < s'.pos := by
  obtain ⟨-, -, -, -, -, -, -, -, -, -, -, -, -, -, -, -, -, -, -, -, -, -, -,
    hStmt⟩ := parserProgress fuel
  simp only [stmtLoopStep] at h
  split at h
  · simp at h
  · rcases hp : parseStmt fuel s with ⟨rp, s1⟩
    rw [hp] at h
    have HP := hStmt s
    rw [hp] at HP
    cases rp with
    | some st =>
      dsimp only at h
      simp only [Option.some.injEq, Prod.mk.injEq] at h
      obtain ⟨rfl, rfl⟩ := h
      exact ⟨HP.1.1, HP.1.2.1, HP.2 (by simp)⟩
    | none =>
      dsimp only at h
      simp only [Option.some.injEq, Prod.mk.injEq] at h
      obtain ⟨rfl, rfl⟩ := h
      have h2 : pOk s s1.sync := pOk_trans HP.1 (pOk_sync s1)
      by_cases hoff : s1.sync.cur.off = s.cur.off
      · rw [if_pos hoff]
        exact ⟨(pOk_trans h2 (pOk_adv _)).1, (pOk_trans h2 (pOk_adv _)).2.1,
          Nat.lt_of_le_of_lt h2.2.2 (Nat.lt_succ_self _)⟩
      · rw [if_neg hoff]
        refine ⟨h2.1, h2.2.1, ?_⟩
        rcases Nat.lt_or_ge s.pos s1.sync.pos with hlt | hge
        · exact hlt
        · exfalso
          have hpe : s1.sync.pos = s.pos := le_antisymm hge h2.2.2
          have hcur : s1.sync.cur = s.cur := by
            unfold PSt.cur
            rw [h2.1, h2.2.1, hpe]
          exact hoff (by rw [hcur])

theorem stmtLoopRun_total : ∀ (n fuel : Nat) (s : PSt), s.eofTok.ty = .eof →
    s.toks.length + 1 - s.pos < n → (stmtLoopRun n fuel s).isSome = true := by
  intro n
  induction n with
  | zero => intro fuel s hE hlt; exact absurd hlt (Nat.not_lt_zero _)
  | succ n ih =>
    intro fuel s hE hlt
    rcases hstep : stmtLoopStep fuel s with - | ⟨r, s'⟩
    · simp [stmtLoopRun, hstep]
    · have hp := stmtLoopStep_progress fuel s r s' hstep
      have hpos : s.pos ≤ s.toks.length := by
        by_contra hgt
        push_neg at hgt
        have hc : s.cur = s.eofTok := cur_past_end s (le_of_lt hgt)
        have hnone : stmtLoopStep fuel s = none :=
          stmtLoopStep_eof fuel s (by rw [hc]; exact hE)
        rw [hstep] at hnone
        exact Option.noConfusion hnone
      have hrec : (stmtLoopRun n fuel s').isSome = true := by
        apply ih fuel s'
        · rw [hp.2.1]; exact hE
        · rw [hp.1]
          have hlt2 := hp.2.2
          omega
      simpa [stmtLoopRun, hstep] using hrec

theorem tokenize_eof : ∀ (fuel : Nat) (st : LexSt),
    (tokenize fuel st).2.1.ty = .eof := by
  intro fuel
  induction fuel with
  | zero => intro st; rfl
  | succ f ih =>
    intro st
    simp only [tokenize]
    split
    · rename_i heq
      exact heq
    · rcases htk : tokenize f (lexer_next_token st).st with ⟨ts, e, es⟩
      have he := ih (lexer_next_token st).st
      rw [htk] at he
      exact he

/-- Claim C9: the parser's statement-list loops always terminate.  One
loop iteration (`stmtLoopStep`, the shared body of the loops of
`parse_compound_statement` and `parse_function`) keeps the token stream
and EOF token fixed and strictly advances the cursor — via the parsed
statement, via synchronization, or via the forced one-token advance
when the cursor would not otherwise move; the loop exits as soon as the
current token is EOF (or `}`); consequently the loop reaches its exit
within `#tokens + 1 - pos` iterations; and the lexer's token stream is
always terminated by a token of kind EOF, so the exit is reached on
every input. -/
theorem c9_parser_loops_terminate :
    (∀ (fuel : Nat) (s : PSt) (r : Option Stmt) (s' : PSt),
      stmtLoopStep fuel s = some (r, s') →
      s'.toks = s.toks ∧ s'.eofTok = s.eofTok ∧ s.pos < s'.pos) ∧
    (∀ (fuel : Nat) (s : PSt), s.cur.ty = .eof → stmtLoopStep fuel s = none) ∧
    (∀ (n fuel : Nat) (s : PSt), s.eofTok.ty = .eof →
      s.toks.length + 1 - s.pos < n → (stmtLoopRun n fuel s).isSome = true) ∧
    (∀ (fuel : Nat) (st : LexSt), (tokenize fuel st).2.1.ty = .eof) :=
  ⟨fun fuel s r s' h => stmtLoopStep_progress fuel s r s' h,
   fun fuel s h => stmtLoopStep_eof fuel s h,
   fun n fuel s h1 h2 => stmtLoopRun_total n fuel s h1 h2,
   fun fuel st => tokenize_eof fuel st⟩

theorem c9_witness :
    ((⟨c9Toks, c9Eof, 3, []⟩ : PSt).toks = c9St.toks ∧
      (⟨c9Toks, c9Eof, 3, []⟩ : PSt).eofTok = c9St.eofTok ∧
      c9St.pos < (⟨c9Toks, c9Eof, 3, []⟩ : PSt).pos) ∧
    stmtLoopStep 50 ⟨c9Toks, c9Eof, 3, []⟩ = none ∧
    (stmtLoopRun 5 50 c9St).isSome = true :=
  ⟨c9_parser_loops_terminate.1 50 c9St (some (.ret (.intConst 1)))
      ⟨c9Toks, c9Eof, 3, []⟩ (by rfl),
   c9_parser_loops_terminate.2.1 50 ⟨c9Toks, c9Eof, 3, []⟩ (by rfl),
   c9_parser_loops_terminate.2.2.1 5 50 c9St (by rfl) (by decide)⟩

/-- Claim C3: on `int main() { return x; }` the pipeline reports the
semantic diagnostic 3001 at the location of `x` (line 1, column 21),
exits with code 1 and produces no output; and in general whenever any
phase has recorded an error the driver stops with exit code 1 and no
output bytes. -/
theorem c3_undeclared_var_diagnostic :
    compile ("int main() { return x; }".toList) =
      ⟨1, none, [⟨3001, 1, 21⟩]⟩ ∧
    (∀ src : List Char, (compile src).errors ≠ [] →
      (compile src).exitCode = 1 ∧ (compile src).output = none) := by
  constructor
  · rfl
  · intro src h
    revert h
    simp only [compile]
    rcases tokenize (src.length + 1) (lexInit src) with ⟨toks, eofTok, lexErrs⟩
    dsimp only
    rcases parseProgram (pipelineFuel src) ⟨toks, eofTok, 0, lexErrs⟩ with ⟨ast, s1⟩
    dsimp only
    split
    · intro _
      exact ⟨rfl, rfl⟩
    · cases ast with
      | none =>
        intro _
        exact ⟨rfl, rfl⟩
      | some p =>
        dsimp only
        rcases semantic_analyze p with ⟨ok, semErrs⟩
        dsimp only
        split
        · intro _
          exact ⟨rfl, rfl⟩
        · rcases codegen_emit_wasm ⟨[ir_generate p]⟩ with - | bytes
          · intro _
            exact ⟨rfl, rfl⟩
          · intro h
            exact absurd rfl h

theorem c3_witness :
    (compile ("int".toList)).exitCode = 1 ∧
    (compile ("int".toList)).output = none :=
  c3_undeclared_var_diagnostic.2 ("int".toList) (by decide)

theorem lexer_errs_1001 (s0 : LexSt) :
    ((lexer_next_token s0).errs).all (fun e => e.id == 1001) = true := by
  unfold lexer_next_token
  dsimp only
  split
  · rfl
  · split <;>
      first
        | rfl
        | (split <;> rfl)
        | (split
           · rfl
           · split <;> rfl)

theorem tokenize_errs_1001 : ∀ (fuel : Nat) (st : LexSt),
    ((tokenize fuel st).2.2).all (fun e => e.id == 1001) = true := by
  intro fuel
  induction fuel with
  | zero => intro st; rfl
  | succ f ih =>
    intro st
    simp only [tokenize]
    split
    · exact lexer_errs_1001 st
    · rcases htk : tokenize f (lexer_next_token st).st with ⟨ts, e, es⟩
      have hrec := ih (lexer_next_token st).st
      rw [htk] at hrec
      show ((lexer_next_token st).errs ++ es).all (fun e => e.id == 1001) = true
      rw [List.all_append, lexer_errs_1001 st, hrec]
      rfl

theorem lexer_digit_intlit (c : Char) (rest : List Char)
    (hc : c ∈ ['0', '1', '2', '3', '4', '5', '6', '7', '8', '9']) :
    (lexer_next_token (lexInit (c :: rest))).tok.ty = .intlit ∧
    (lexer_next_token (lexInit (c :: rest))).tok.text =
      c :: rest.takeWhile is_digit ∧
    (lexer_next_token (lexInit (c :: rest))).errs = [] := by
  fin_cases hc <;> exact ⟨rfl, rfl, rfl⟩

theorem parsePrimary_intlit (fuel : Nat) (s : PSt) (h1 : s.cur.ty = .intlit)
    (h2 : ¬s.adv.cur.ty = .lparen) :
    parsePrimary (fuel + 1) s =
      (some (.intConst (wrap32 (str_to_long s.cur.text))), s.adv) := by
  simp only [parsePrimary]
  rw [if_pos h1]
  rw [if_neg h2]

/-- Claim C10: the lexer never reports a too-large-number diagnostic —
every diagnostic it can emit has code 1001 — and a digit run is always
tokenized as an integer literal covering the maximal digit prefix; the
parser stores the literal's value as `wrap32 (str_to_long text)`, the
decimal accumulation truncated into the 32-bit signed int field, so
out-of-range literals wrap: `4294967296` becomes `0` and `2147483648`
becomes `-2147483648` instead of being rejected. -/
theorem c10_literals_wrap_without_diagnostic :
    (∀ s0 : LexSt,
      ((lexer_next_token s0).errs).all (fun e => e.id == 1001) = true) ∧
    (∀ (fuel : Nat) (st : LexSt),
      ((tokenize fuel st).2.2).all (fun e => e.id == 1001) = true) ∧
    (∀ (c : Char) (rest : List Char),
      c ∈ ['0', '1', '2', '3', '4', '5', '6', '7', '8', '9'] →
      (lexer_next_token (lexInit (c :: rest))).tok.ty = .intlit ∧
      (lexer_next_token (lexInit (c :: rest))).tok.text =
        c :: rest.takeWhile is_digit ∧
      (lexer_next_token (lexInit (c :: rest))).errs = []) ∧
    (∀ (fuel : Nat) (s : PSt), s.cur.ty = .intlit → ¬s.adv.cur.ty = .lparen →
      parsePrimary (fuel + 1) s =
        (some (.intConst (wrap32 (str_to_long s.cur.text))), s.adv)) ∧
    wrap32 (str_to_long "4294967296".toList) = 0 ∧
    wrap32 (str_to_long "2147483648".toList) = -2147483648 :=
  ⟨fun s0 => lexer_errs_1001 s0,
   fun fuel st => tokenize_errs_1001 fuel st,
   fun c rest hc => lexer_digit_intlit c rest hc,
   fun fuel s h1 h2 => parsePrimary_intlit fuel s h1 h2,
   by decide, by decide⟩

theorem c10_witness :
    ((lexer_next_token (lexInit ('1' :: "23".toList))).tok.ty = .intlit ∧
      (lexer_next_token (lexInit ('1' :: "23".toList))).tok.text =
        '1' :: ("23".toList).takeWhile is_digit ∧
      (lexer_next_token (lexInit ('1' :: "23".toList))).errs = []) ∧
    parsePrimary (2 + 1) c10St =
      (some (.intConst (wrap32 (str_to_long c10St.cur.text))), c10St.adv) :=
  ⟨c10_literals_wrap_without_diagnostic.2.2.1 '1' "23".toList (by decide),
   c10_literals_wrap_without_diagnostic.2.2.2.1 2 c10St (by rfl) (by decide)⟩

end Wacc
